import Mathlib

/-!
Verification development for the Selection & Context Resolution Engine of the
tapword-translator extension.

The development shallowly embeds the relevant source modules:

* `languageValidator.ts` (`shouldTriggerTranslationAsync`) — native-language
  suppression classification;
* `selectionValidator.ts` (handlers version, `validateSelectionAsync` and
  `validateSingleClickAsync`) — the validation gate pipeline;
* `tapWordDetector.ts` (`expandRangeToWord`) — word-at-point resolution;
* `contextExtractorV2.ts` (`expandRangeToSentence` and its helpers) —
  sentence-boundary expansion.

JavaScript strings are modelled as `List Char` (a list of Unicode scalar
values); `text.length` of JS, which counts UTF-16 code units, is modelled by
`utf16Len`.  The DOM within a boundary root is modelled as the ordered list
of its text leaves (the output of the filtered tree walker), each leaf
carrying its text and an identifier of its chain of block-level ancestors
below the root; `isBlockBoundaryCrossed` from the source holds between two
leaves exactly when those chains differ.

Opaque collaborators whose source is not part of the repository snapshot
(`domSanitizer`, the async `languageDetector`, the `constants` and `types`
modules) are modelled from the spec as explicit parameters: the detection
service is a function `List Char → Option String`, sanitized range text and
surrounding context are carried by the range model, and numeric constants
and defaults are parameters of the pipeline.
-/

namespace TapWord

/-- JS strings are lists of Unicode scalar values. -/
abbrev Str := List Char

/-- UTF-16 length of a string: astral codepoints occupy two code units.
Models the JS `String.prototype.length`. -/
def utf16Len (s : Str) : Nat :=
  s.foldr (fun c n => (if 0x10000 ≤ c.val.toNat then 2 else 1) + n) 0

/-- The JS whitespace set used by `\s`, `trim` and `split(/\s+/)`:
tab, LF, VT, FF, CR, space, NBSP, Ogham space, the Unicode space
separators U+2000–U+200A, LS, PS, NNBSP, MMSP, ideographic space, BOM. -/
def jsWhitespace (c : Char) : Bool :=
  let v := c.val.toNat
  v = 0x9 || v = 0xA || v = 0xB || v = 0xC || v = 0xD || v = 0x20 ||
  v = 0xA0 || v = 0x1680 || (0x2000 ≤ v && v ≤ 0x200A) ||
  v = 0x2028 || v = 0x2029 || v = 0x202F || v = 0x205F || v = 0x3000 ||
  v = 0xFEFF

/-- Models JS `String.prototype.trim`: strip `\s` from both ends. -/
def jsTrim (s : Str) : Str :=
  ((s.dropWhile jsWhitespace).reverse.dropWhile jsWhitespace).reverse

/-- `\d` of JS regexes with the `u` flag: the ASCII digits. -/
def isDigitCh (c : Char) : Bool :=
  0x30 ≤ c.val.toNat && c.val.toNat ≤ 0x39

/-- `[a-zA-Z0-9]`, the token test of `isSegmentShort`. -/
def isAsciiAlnum (c : Char) : Bool :=
  let v := c.val.toNat
  (0x41 ≤ v && v ≤ 0x5A) || (0x61 ≤ v && v ≤ 0x7A) || (0x30 ≤ v && v ≤ 0x39)

/-- The word-character class `[A-Za-z0-9'-]` of `tapWordDetector.ts`
(`WORD_CHAR_REGEX`); 0x27 is the apostrophe, 0x2D the hyphen. -/
def isWordChar (c : Char) : Bool :=
  let v := c.val.toNat
  (0x41 ≤ v && v ≤ 0x5A) || (0x61 ≤ v && v ≤ 0x7A) ||
  (0x30 ≤ v && v ≤ 0x39) || v = 0x27 || v = 0x2D

/-- Embeds `\p{Script=Han}` of `REGEX_HAN`: the principal Han ranges
(CJK Unified Ideographs with extension A, the supplementary-plane
extensions, compatibility ideographs, and the Han marks of the CJK
Symbols block). -/
def isHan (c : Char) : Bool :=
  let v := c.val.toNat
  (0x4E00 ≤ v && v ≤ 0x9FFF) || (0x3400 ≤ v && v ≤ 0x4DBF) ||
  (0xF900 ≤ v && v ≤ 0xFAD9) || (0x20000 ≤ v && v ≤ 0x2FA1F) ||
  v = 0x3005 || v = 0x3007 || (0x3021 ≤ v && v ≤ 0x3029)

/-- Embeds `[\p{Script=Hiragana}\p{Script=Katakana}]` of `REGEX_KANA`:
Hiragana, Katakana (with phonetic extensions), and halfwidth Katakana. -/
def isKana (c : Char) : Bool :=
  let v := c.val.toNat
  (0x3041 ≤ v && v ≤ 0x3096) || (0x309D ≤ v && v ≤ 0x309F) ||
  (0x30A1 ≤ v && v ≤ 0x30FA) || (0x30FD ≤ v && v ≤ 0x30FF) ||
  (0x31F0 ≤ v && v ≤ 0x31FF) || (0xFF66 ≤ v && v ≤ 0xFF9D)

/-- Embeds `\p{Script=Hangul}` of `REGEX_HANGUL`: syllables, jamo,
compatibility jamo, extended jamo and halfwidth forms. -/
def isHangul (c : Char) : Bool :=
  let v := c.val.toNat
  (0xAC00 ≤ v && v ≤ 0xD7A3) || (0x1100 ≤ v && v ≤ 0x11FF) ||
  (0x3130 ≤ v && v ≤ 0x318F) || (0xA960 ≤ v && v ≤ 0xA97F) ||
  (0xD7B0 ≤ v && v ≤ 0xD7FF) || (0xFFA0 ≤ v && v ≤ 0xFFDC)

/-- Embeds `\p{Script=Cyrillic}` of `REGEX_CYRILLIC`: the basic block,
supplement, extensions and the extended blocks. -/
def isCyrillic (c : Char) : Bool :=
  let v := c.val.toNat
  (0x400 ≤ v && v ≤ 0x52F) || (0x1C80 ≤ v && v ≤ 0x1C88) ||
  (0x2DE0 ≤ v && v ≤ 0x2DFF) || (0xA640 ≤ v && v ≤ 0xA69F)

/-- ASCII `toLowerCase` on one character; the source lowercases a language
code such as `"zh-CN"`, for which only the ASCII mapping is exercised. -/
def asciiLower (c : Char) : Char :=
  if 0x41 ≤ c.val.toNat && c.val.toNat ≤ 0x5A then Char.ofNat (c.val.toNat + 0x20)
  else c

/-- `(targetLanguage || "").toLowerCase().split("-")[0]` from
`shouldTriggerTranslationAsync`: normalize `zh-CN` to `zh`. -/
def normalizeLang (targetLanguage : String) : String :=
  ⟨(targetLanguage.toList.map asciiLower).takeWhile (fun c => c ≠ '-')⟩

/-- The direct-text Chinese check of the `zh` branch:
`totalLength > 0 && chineseCount / totalLength > CHINESE_RATIO_THRESHOLD`
with `CHINESE_RATIO_THRESHOLD = 0.05`.  The float comparison
`count / total > 0.05` is embedded in its exact rational form
`20 * count > total`: the two agree for every feasible JS string, because
the double nearest to `0.05` exceeds the rational `1/20` by less than
`2.8e-18` while any rational strictly between them needs a denominator
larger than any representable string length. -/
def zhDirectCheck (text : Str) : Bool :=
  let chineseCount := (text.filter isHan).length
  let totalLength := utf16Len text
  0 < totalLength && 20 * chineseCount > totalLength

/-- Embeds `shouldTriggerTranslationAsync` of `languageValidator.ts`.
The async detection service `detectSourceLanguageAsync` is the parameter
`detect` (its awaited result, an ISO code or null, is an
`Option String`); the optional `contextText` parameter is an
`Option Str`.  Returns `true` when translation should be offered. -/
def shouldTriggerTranslationAsync (detect : Str → Option String)
    (text : Str) (targetLanguage : String) (contextText : Option Str) : Bool :=
  let tgtLang := normalizeLang targetLanguage
  if tgtLang = "zh" then
    -- allow if Japanese Kana is present
    if text.any isKana then true
    else if zhDirectCheck text then false
    else match contextText with
      | some c =>
        if 0 < (jsTrim c).length then
          match detect c with
          | some l => if l = "zh" then false else true
          | none => true
        else true
      | none => true
  else if tgtLang = "ja" then
    if text.any isKana then false else true
  else if tgtLang = "ko" then
    if text.any isHangul then false else true
  else if tgtLang = "ru" then
    if text.any isCyrillic then false else true
  else if tgtLang = "en" then true
  else
    match contextText with
    | some c =>
      if 0 < c.length then
        match detect c with
        | some l => if l = tgtLang then false else true
        | none => true
      else true
    | none => true

/-- `!shouldTriggerTranslationAsync(...)`, the helper `isNativeLanguageAsync`
of `selectionValidator.ts` (handlers version). -/
def isNativeLanguageAsync (detect : Str → Option String)
    (text : Str) (targetLanguage : String) (context : Option Str) : Bool :=
  !(shouldTriggerTranslationAsync detect text targetLanguage context)

/-- Character class of the contentless regex `/^[\d\s\p{P}\p{S}]+$/u`:
digits, whitespace, Unicode punctuation (`\p{P}`) or symbols (`\p{S}`).
The punctuation/symbol union is embedded by its principal ranges: it is
exact on ASCII and covers general punctuation, currency and math symbols,
arrows/technical/shape blocks, CJK symbols and fullwidth forms. -/
def isContentlessChar (c : Char) : Bool :=
  let v := c.val.toNat
  isDigitCh c || jsWhitespace c ||
  -- ASCII punctuation and symbols (everything printable except alnum)
  (0x21 ≤ v && v ≤ 0x2F) || (0x3A ≤ v && v ≤ 0x40) ||
  (0x5B ≤ v && v ≤ 0x60) || (0x7B ≤ v && v ≤ 0x7E) ||
  -- general punctuation, currency, arrows, math, technical, shapes
  (0x2010 ≤ v && v ≤ 0x2027) || (0x2030 ≤ v && v ≤ 0x205E) ||
  (0x20A0 ≤ v && v ≤ 0x20CF) || (0x2190 ≤ v && v ≤ 0x2BFF) ||
  -- CJK symbols/punctuation and fullwidth forms
  (0x3001 ≤ v && v ≤ 0x3003) || (0x3008 ≤ v && v ≤ 0x3011) ||
  (0x3014 ≤ v && v ≤ 0x301F) ||
  (0xFF01 ≤ v && v ≤ 0xFF0F) || (0xFF1A ≤ v && v ≤ 0xFF20) ||
  (0xFF3B ≤ v && v ≤ 0xFF40) || (0xFF5B ≤ v && v ≤ 0xFF65)

/-- The contentless test `/^[\d\s\p{P}\p{S}]+$/u.test(s)`: a nonempty
string made only of digits, whitespace, punctuation and symbols. -/
def isContentless (s : Str) : Bool :=
  !s.isEmpty && s.all isContentlessChar

/-- The triggers of `validateSelectionAsync` (handlers version). -/
inductive ValidationTrigger where
  | icon
  | doubleClickWord
  | doubleClickSentence
deriving DecidableEq

/-- The `UserSettings` fields read by the validators.  In the source the
settings object itself may be null and each field may be absent; absence
is `none` and the `??` / `||` defaulting of the source is modelled at the
use sites. -/
structure UserSettings where
  enableTapWord : Option Bool
  showIcon : Option Bool
  doubleClickTranslateV2 : Option Bool
  doubleClickSentenceTranslate : Option Bool
  singleClickTranslate : Option Bool
  suppressNativeLanguage : Option Bool
  targetLanguage : Option String
deriving DecidableEq

/-- Modelled from the spec: the `DEFAULT_USER_SETTINGS.targetLanguage` and
`DEFAULT_SUPPRESS_NATIVE_LANGUAGE` values of the `@/0_common/types`
module, whose source is not part of the snapshot.  They are carried as
parameters of the pipeline. -/
structure PipelineDefaults where
  targetLanguage : String
  suppressNativeLanguage : Bool

/-- The face a DOM `Range` shows to `validateSelectionAsync`, with the
outputs of the opaque collaborators attached.  Modelled from the spec:
`cleanText` is `domSanitizer.getCleanTextFromRange(range)` (the sanitized
text of the range), `contextText` is
`domSanitizer.getSurroundingTextForDetection(range, 100)` (a fixed-size
sanitized window around the range), `insideEditable` is
`editableElementDetector.isEditableElement` on the range's container
element, and `insideExtensionUi` tells whether that element has an
ancestor with the extension's icon/tooltip/anchor CSS class. -/
structure RangeModel where
  cleanText : Str
  contextText : Str
  insideEditable : Bool
  insideExtensionUi : Bool
deriving DecidableEq

/-- A DOM `Selection`: its `rangeCount` and, when a range exists, the
result of `getRangeAt(0)`. -/
structure SelectionModel where
  rangeCount : Nat
  range : RangeModel
deriving DecidableEq

/-- The `ValidationResult` of `selectionValidator.ts`. -/
structure ValidationResult where
  isValid : Bool
  text : Str
  range : Option RangeModel
  reason : String
  shouldCleanup : Bool
deriving DecidableEq

/-- Replace only the `suppressNativeLanguage` field of a settings
object (used to state that a path ignores this field). -/
def setSuppress (s : UserSettings) (v : Option Bool) : UserSettings :=
  ⟨s.enableTapWord, s.showIcon, s.doubleClickTranslateV2,
   s.doubleClickSentenceTranslate, s.singleClickTranslate, v, s.targetLanguage⟩

/-- `settings?.targetLanguage || DEFAULT_USER_SETTINGS.targetLanguage`:
note `||`, so the empty string also falls back to the default. -/
def effectiveTargetLang (settings : Option UserSettings)
    (defaults : PipelineDefaults) : String :=
  match settings.bind UserSettings.targetLanguage with
  | some t => if t = "" then defaults.targetLanguage else t
  | none => defaults.targetLanguage

/-- Gates 8–9 of `validateSelectionAsync`: the DOM/element checks and the
valid verdict, reached on fallthrough from the suppression gate. -/
def validateTail (range : RangeModel) (selectedText : Str) : ValidationResult :=
  if range.insideEditable then
    ⟨false, selectedText, none, "Selection inside editable element", true⟩
  else if range.insideExtensionUi then
    ⟨false, selectedText, none, "Selection inside extension UI", false⟩
  else ⟨true, selectedText, some range, "Valid selection", false⟩

/-- Embeds `validateSelectionAsync` of the handlers-version
`selectionValidator.ts`.  `maxSelectionLength` stands for
`constants.MAX_SELECTION_LENGTH` (the `constants` module is not in the
snapshot); `detect` is the async language-detection service. -/
def validateSelectionAsync (detect : Str → Option String)
    (maxSelectionLength : Nat) (defaults : PipelineDefaults)
    (selection : Option SelectionModel) (settings : Option UserSettings)
    (trigger : ValidationTrigger) : ValidationResult :=
  -- 1. Basic Selection Check
  match selection with
  | none => ⟨false, [], none, "No valid selection", true⟩
  | some sel =>
    if sel.rangeCount = 0 then ⟨false, [], none, "No valid selection", true⟩
    else
    -- 2. Global Settings Check
    let enableTapWord := (settings.bind UserSettings.enableTapWord).getD true
    if !enableTapWord then
      ⟨false, [], none, "Extension disabled via enableTapWord", true⟩
    else
    -- 3. Trigger-specific Settings Check
    if trigger = .icon ∧ !((settings.bind UserSettings.showIcon).getD true) then
      ⟨false, [], none, "Icon disabled via settings", false⟩
    else if trigger = .doubleClickWord ∧
        !((settings.bind UserSettings.doubleClickTranslateV2).getD true) then
      ⟨false, [], none, "Double-click word translation disabled via settings", false⟩
    else if trigger = .doubleClickSentence ∧
        !((settings.bind UserSettings.doubleClickSentenceTranslate).getD true) then
      ⟨false, [], none, "Double-click sentence translation disabled via settings", false⟩
    else
    -- 4. Text Extraction & Validation
    let range := sel.range
    let selectedText := jsTrim range.cleanText
    if selectedText.length = 0 then
      ⟨false, [], none, "Empty selection", true⟩
    else
    -- 5. Length Check
    if utf16Len selectedText > maxSelectionLength then
      ⟨false, selectedText,
        none, "Selection too long (" ++ toString (utf16Len selectedText) ++ " chars)", true⟩
    else
    -- 6. Contentless Check (Numeric, Symbols, Punctuation only)
    if isContentless selectedText then
      ⟨false, selectedText, none, "Contentless selection skipped", false⟩
    else
    -- 7. Language Suppression Check
    let targetLang := effectiveTargetLang settings defaults
    let contextText := range.contextText
    let suppressNativeLanguage :=
      (settings.bind UserSettings.suppressNativeLanguage).getD defaults.suppressNativeLanguage
    if trigger = .doubleClickWord ∨ trigger = .doubleClickSentence then
      if isNativeLanguageAsync detect selectedText targetLang (some contextText) then
        ⟨false, selectedText, none, "Double-click suppressed on native language", true⟩
      else validateTail range selectedText
    else if suppressNativeLanguage then
      if !(shouldTriggerTranslationAsync detect selectedText targetLang (some contextText)) then
        ⟨false, selectedText, none, "Suppressed by language detector", true⟩
      else validateTail range selectedText
    else validateTail range selectedText

/-- The mouse-event data read by `validateSingleClickAsync`, with the
results of the structural collaborator checks attached:
`targetIsInteractive` is
`editableElementDetector.isInteractiveElement(event.target, event)` and
`targetInExtensionUi` tells whether `event.target` has an ancestor with
one of the extension's icon/anchor/tooltip/modal/backdrop CSS classes. -/
structure MouseEventModel where
  button : Nat
  defaultPrevented : Bool
  ctrlKey : Bool
  altKey : Bool
  metaKey : Bool
  shiftKey : Bool
  targetIsInteractive : Bool
  targetInExtensionUi : Bool
deriving DecidableEq

/-- The page state read by `validateSingleClickAsync`:
`hasNonCollapsedSelection` is `selection && !selection.isCollapsed` for
`window.getSelection()`, and `wordRangeAtPoint` is the result of
`tapWordDetector.getWordRangeFromPoint(event.clientX, event.clientY)`. -/
structure PageState where
  hasNonCollapsedSelection : Bool
  wordRangeAtPoint : Option RangeModel
deriving DecidableEq

/-- `MAX_SINGLE_CLICK_WORD_LENGTH` of `selectionValidator.ts`. -/
def maxSingleClickWordLength : Nat := 30

/-- Embeds `validateSingleClickAsync` of the handlers-version
`selectionValidator.ts`. -/
def validateSingleClickAsync (detect : Str → Option String)
    (defaults : PipelineDefaults) (event : MouseEventModel)
    (page : PageState) (settings : Option UserSettings) : ValidationResult :=
  -- 0. Global & Feature Settings Check
  let enableTapWord := (settings.bind UserSettings.enableTapWord).getD true
  if !enableTapWord then
    ⟨false, [], none, "Extension disabled via enableTapWord", false⟩
  else if !((settings.bind UserSettings.singleClickTranslate).getD false) then
    ⟨false, [], none, "Feature disabled", false⟩
  -- 1. Event Check
  else if event.button ≠ 0 ∨ event.defaultPrevented then
    ⟨false, [], none, "Invalid event", false⟩
  -- 1.5. Modifier Key Check
  else if event.ctrlKey || event.altKey || event.metaKey || event.shiftKey then
    ⟨false, [], none, "Modifier key pressed", false⟩
  -- 2. Interactive Element Check
  else if event.targetIsInteractive then
    ⟨false, [], none, "Interactive element", false⟩
  -- 3. Extension UI Check
  else if event.targetInExtensionUi then
    ⟨false, [], none, "Extension UI element", false⟩
  -- 4. Selection Check
  else if page.hasNonCollapsedSelection then
    ⟨false, [], none, "Active selection present", false⟩
  else
    -- 5. Range Extraction
    match page.wordRangeAtPoint with
    | none => ⟨false, [], none, "No word range at point", false⟩
    | some range =>
      -- 6. Text Validation
      let sanitizedText := jsTrim range.cleanText
      if sanitizedText.isEmpty || sanitizedText.any jsWhitespace then
        ⟨false, sanitizedText, none, "Invalid text (empty or whitespace)", false⟩
      else if utf16Len sanitizedText > maxSingleClickWordLength then
        ⟨false, sanitizedText,
          none, "Word too long (" ++ toString (utf16Len sanitizedText) ++ " chars)", false⟩
      -- 7. Contentless Check
      else if isContentless sanitizedText then
        ⟨false, sanitizedText, none, "Contentless selection skipped", false⟩
      -- 8. Language Suppression Check
      else
        let targetLang := effectiveTargetLang settings defaults
        let contextText := range.contextText
        if isNativeLanguageAsync detect sanitizedText targetLang (some contextText) then
          ⟨false, sanitizedText, none, "Single-click suppressed on native language", true⟩
        else ⟨true, sanitizedText, some range, "Valid single click", true⟩

/-- `text[i] ?? ""` fed to `isWordChar`: out-of-range reads test the empty
string, for which the regex fails. -/
def wordCharAt (text : Str) (i : Nat) : Bool :=
  (text.get? i).elim false isWordChar

/-- The left-expansion loop of `expandRangeToWord`:
`while (start > 0 && isWordChar(text[start - 1])) start -= 1`. -/
def findWordStart (text : Str) : Nat → Nat
  | 0 => 0
  | n + 1 => if wordCharAt text n then findWordStart text n else n + 1

/-- The right-expansion loop of `expandRangeToWord`, with explicit fuel:
`while (end < text.length && isWordChar(text[end])) end += 1`.  Each
iteration moves the index one step right, so `text.length + 1` fuel is
never exhausted. -/
def findWordEndAux (text : Str) : Nat → Nat → Nat
  | 0, idx => idx
  | fuel + 1, idx =>
    if idx < text.length && wordCharAt text idx then findWordEndAux text fuel (idx + 1)
    else idx

/-- The right-expansion loop of `expandRangeToWord`, started with enough
fuel. -/
def findWordEnd (text : Str) (idx : Nat) : Nat :=
  findWordEndAux text (text.length + 1) idx

/-- The step-back adjustment of `expandRangeToWord`: move one left when
the caret sits just past a word's last glyph. -/
def wordAdjustedIndex (text : Str) (offset : Nat) : Nat :=
  if 0 < offset && !wordCharAt text offset && wordCharAt text (offset - 1) then offset - 1
  else offset

/-- Embeds `expandRangeToWord` of `tapWordDetector.ts` for a caret at
`offset` in a text node whose content is `text`; returns the word span as
`some (start, stop)` (a half-open offset pair on the node) or `none`. -/
def expandRangeToWord (text : Str) (offset : Nat) : Option (Nat × Nat) :=
  if text.length = 0 then none
  else if !wordCharAt text (wordAdjustedIndex text offset) then none
  else if findWordStart text (wordAdjustedIndex text offset) =
      findWordEnd text (wordAdjustedIndex text offset) then none
  else some (findWordStart text (wordAdjustedIndex text offset),
    findWordEnd text (wordAdjustedIndex text offset))

/-! ## Sentence-boundary expansion (`contextExtractorV2.ts`)

The boundary root resolved by `findBoundaryRoot` is modelled by the
ordered list of the text leaves its filtered tree walker yields (ignored
subtrees are already absent).  Each leaf carries an identifier of its
chain of block-level ancestors strictly below the root, so
`isBlockBoundaryCrossed(a, b)` — "some block element lies strictly
between `a` or `b` and their common ancestor" — holds exactly when the
identifiers differ. -/

/-- A text leaf of the boundary root: its text and the identifier of its
block-ancestor chain. -/
structure Leaf where
  text : Str
  block : Nat
deriving DecidableEq

/-- The filtered, ordered text leaves of the boundary root. -/
abbrev Doc := List Leaf

/-- A `NodePosition` of the source: a leaf index plus a character offset. -/
structure Pos where
  leaf : Nat
  off : Nat
deriving DecidableEq

/-- Text of leaf `i` (empty when out of range). -/
def textOf (doc : Doc) (i : Nat) : Str :=
  ((doc.get? i).map Leaf.text).getD []

/-- Block-chain identifier of leaf `i`. -/
def blockOf (doc : Doc) (i : Nat) : Nat :=
  ((doc.get? i).map Leaf.block).getD 0

/-- `textLength` of the source on leaf `i`. -/
def leafLen (doc : Doc) (i : Nat) : Nat :=
  (textOf doc i).length

/-- A position inside the document: a real leaf, offset within its text. -/
def ValidPos (doc : Doc) (p : Pos) : Prop :=
  p.leaf < doc.length ∧ p.off ≤ leafLen doc p.leaf

instance (doc : Doc) (p : Pos) : Decidable (ValidPos doc p) :=
  inferInstanceAs (Decidable (_ ∧ _))

/-- `comparePositions` of the source: same leaf compares offsets
(as a difference), otherwise document order gives `-1` or `1`. -/
def comparePositions (a b : Pos) : Int :=
  if a.leaf = b.leaf then (a.off : Int) - (b.off : Int)
  else if a.leaf < b.leaf then -1 else 1

/-- `DEFAULT_HARD_TERMINATORS`: `.`, `?`, `!`, `。`, `？`, `！`, `…` and
the line break. -/
def hardTerminators : List Char :=
  ['.', '?', '!', Char.ofNat 0x3002, Char.ofNat 0xFF1F, Char.ofNat 0xFF01,
   Char.ofNat 0x2026, '\n']

/-- `DEFAULT_SOFT_TERMINATORS`: `,`, `，`, `;`, `；`, `:`, `：`, `—`. -/
def softTerminators : List Char :=
  [',', Char.ofNat 0xFF0C, ';', Char.ofNat 0xFF1B, ':', Char.ofNat 0xFF1A,
   Char.ofNat 0x2014]

/-- The union set `allTerminators` built in `expandRangeToSentence`. -/
def allTerminators : List Char := hardTerminators ++ softTerminators

/-- Index of the first character satisfying `p`. -/
def firstIdxP (p : Char → Bool) : Str → Option Nat
  | [] => none
  | c :: rest => if p c then some 0 else (firstIdxP p rest).map (· + 1)

/-- `firstTerminatorIndex`: the minimum over the terminators of their
first index in `s`, i.e. the first index holding a terminator. -/
def firstTermIdx (s : Str) (terms : List Char) : Option Nat :=
  firstIdxP (fun c => terms.contains c) s

/-- `lastTerminatorIndex`: the maximum over the terminators of their last
index in `s`, i.e. the last index holding a terminator. -/
def lastTermIdx (s : Str) (terms : List Char) : Option Nat :=
  match firstIdxP (fun c => terms.contains c) s.reverse with
  | some j => some (s.length - 1 - j)
  | none => none

/-- The forward traversal of `findSentenceEndWithin` across text nodes,
with explicit fuel.  The walker visits `prev + 1, prev + 2, …`, so
`doc.length` fuel is never exhausted; the fuel-out branch repeats the
root-end fallback. -/
def findEndFromAux (doc : Doc) (terms : List Char) : Nat → Nat → Option Pos
  | 0, _ =>
    if doc.isEmpty then none else some ⟨doc.length - 1, leafLen doc (doc.length - 1)⟩
  | fuel + 1, prev =>
    -- the walker's next node is `cur := prev + 1`
    if prev + 1 < doc.length then
      if blockOf doc (prev + 1) ≠ blockOf doc prev then
        -- crossed into a new block: the sentence ends at the end of prev
        some ⟨prev, leafLen doc prev⟩
      else match firstTermIdx (textOf doc (prev + 1)) terms with
        | some j => some ⟨prev + 1, j + 1⟩
        | none => findEndFromAux doc terms fuel (prev + 1)
    else
      -- reached root end
      if doc.isEmpty then none else some ⟨doc.length - 1, leafLen doc (doc.length - 1)⟩

/-- The node-traversal part of `findSentenceEndWithin`. -/
def findEndFrom (doc : Doc) (terms : List Char) (prev : Nat) : Option Pos :=
  findEndFromAux doc terms doc.length prev

/-- Embeds `findSentenceEndWithin`: first scan the current node after
`off`, then walk forward across text nodes. -/
def findSentenceEndWithin (doc : Doc) (node off : Nat) (terms : List Char) :
    Option Pos :=
  match firstTermIdx ((textOf doc node).drop off) terms with
  | some i => some ⟨node, off + i + 1⟩
  | none => findEndFrom doc terms node

/-- The backward traversal of `findSentenceStartWithin` across text
nodes; structural recursion on the leaf index. -/
def findStartFrom (doc : Doc) (terms : List Char) : Nat → Option Pos
  | 0 =>
    -- no previous node: reached root start
    if doc.isEmpty then none else some ⟨0, 0⟩
  | p + 1 =>
    if blockOf doc p ≠ blockOf doc (p + 1) then
      -- crossed a block boundary: the sentence starts at the start of prev
      some ⟨p + 1, 0⟩
    else match lastTermIdx (textOf doc p) terms with
      | some j => some ⟨p, j + 1⟩
      | none => findStartFrom doc terms p

/-- Embeds `findSentenceStartWithin`: first scan the current node before
`off`, then walk backwards across text nodes. -/
def findSentenceStartWithin (doc : Doc) (node off : Nat) (terms : List Char) :
    Option Pos :=
  match lastTermIdx ((textOf doc node).take off) terms with
  | some i => some ⟨node, i + 1⟩
  | none => findStartFrom doc terms node

/-- One pass of `collapseWhitespace` (`s.replace(/\s+/g, " ")`): the flag
records whether the previous character was whitespace (whose run has
already emitted its single space). -/
def collapseWsAux : Bool → Str → Str
  | _, [] => []
  | prevWs, c :: rest =>
    if jsWhitespace c then
      if prevWs then collapseWsAux true rest
      else ' ' :: collapseWsAux true rest
    else c :: collapseWsAux false rest

/-- `collapseWhitespace` of the source. -/
def collapseWs (s : Str) : Str := collapseWsAux false s

/-- The text of the document between two positions.  Modelled from the
spec: `extractTextBetween` materialises a `Range` and reads it through
`domSanitizer.getCleanTextFromRange`, which yields the text of the
non-ignored leaves it covers — here the concatenation of the covered
slices, since ignored leaves are already absent from the model. -/
def rawTextBetween (doc : Doc) (a b : Pos) : Str :=
  if a.leaf = b.leaf then ((textOf doc a.leaf).take b.off).drop a.off
  else ((textOf doc a.leaf).drop a.off)
    ++ (((doc.drop (a.leaf + 1)).take (b.leaf - a.leaf - 1)).map Leaf.text).flatten
    ++ ((textOf doc b.leaf).take b.off)

/-- `extractTextBetween` of the source: extract, then collapse
whitespace. -/
def extractTextBetween (doc : Doc) (a b : Pos) : Str :=
  collapseWs (rawTextBetween doc a b)

/-- `CJK_PATTERN`: `[一-鿿぀-ヿ가-힯]`. -/
def isCJKChar (c : Char) : Bool :=
  let v := c.val.toNat
  (0x4E00 ≤ v && v ≤ 0x9FFF) || (0x3040 ≤ v && v ≤ 0x30FF) ||
  (0xAC00 ≤ v && v ≤ 0xD7AF)

/-- The maximal non-whitespace runs of a string: `trimmed.split(/\s+/)`
on a trimmed string. -/
def wsTokensAux : Str → Str → List Str
  | [], acc => if acc.isEmpty then [] else [acc.reverse]
  | c :: rest, acc =>
    if jsWhitespace c then
      if acc.isEmpty then wsTokensAux rest []
      else acc.reverse :: wsTokensAux rest []
    else wsTokensAux rest (c :: acc)

/-- `split(/\s+/)` applied to a trimmed string. -/
def wsTokens (s : Str) : List Str := wsTokensAux s []

/-- Embeds `isSegmentShort`: CJK-bearing text is short below
`MIN_CJK_CHARS = 5` characters, other text below `MIN_WORD_COUNT = 3`
tokens containing an alphanumeric character. -/
def isSegmentShort (text : Str) : Bool :=
  let trimmed := jsTrim text
  if trimmed.isEmpty then true
  else if trimmed.any isCJKChar then utf16Len trimmed < 5
  else ((wsTokens trimmed).filter (fun w => w.any isAsciiAlnum)).length < 3

/-- Fuel bound for the expansion phases: the number of positions of the
document plus one.  Each accepted step of a phase moves strictly in
document order, so the loops iterate fewer times than this. -/
def posFuel (doc : Doc) : Nat :=
  (doc.map (fun l => l.text.length + 1)).sum + 1

/-- Phase 1 of `expandRangeToSentence` (greedy expansion right):
while the segment is short and the end has not reached the hard end,
extend to the next terminator; jump to the hard end when the search
fails, overshoots it, or makes no forward progress. -/
def phase1 (doc : Doc) (hardEnd safeStart : Pos) : Nat → Pos → Pos
  | 0, safeEnd => safeEnd
  | fuel + 1, safeEnd =>
    if !isSegmentShort (extractTextBetween doc safeStart safeEnd) ||
        comparePositions safeEnd hardEnd ≥ 0 then safeEnd
    else match findSentenceEndWithin doc safeEnd.leaf safeEnd.off allTerminators with
      | none => hardEnd
      | some nextEnd =>
        if comparePositions nextEnd hardEnd ≥ 0 then hardEnd
        else if comparePositions nextEnd safeEnd ≤ 0 then hardEnd
        else phase1 doc hardEnd safeStart fuel nextEnd

/-- The backward one-step search of phase 2: step back one character
within the current node, or jump to the end of the previous text node;
`none` when no previous text node exists. -/
def searchPosBack (doc : Doc) (safeStart : Pos) : Option Pos :=
  if 0 < safeStart.off then some ⟨safeStart.leaf, safeStart.off - 1⟩
  else if safeStart.leaf = 0 then none
  else some ⟨safeStart.leaf - 1, leafLen doc (safeStart.leaf - 1)⟩

/-- Phase 2 of `expandRangeToSentence` (greedy expansion left): while the
segment is short and the start has not reached the hard start, step one
character back and search for the previous boundary. -/
def phase2 (doc : Doc) (hardStart safeEnd : Pos) : Nat → Pos → Pos
  | 0, safeStart => safeStart
  | fuel + 1, safeStart =>
    if !isSegmentShort (extractTextBetween doc safeStart safeEnd) ||
        comparePositions safeStart hardStart ≤ 0 then safeStart
    else
      match searchPosBack doc safeStart with
      | none => hardStart
      | some sp =>
        match findSentenceStartWithin doc sp.leaf sp.off allTerminators with
        | none => hardStart
        | some prevStart =>
          if comparePositions prevStart hardStart ≤ 0 then hardStart
          else if comparePositions prevStart safeStart ≥ 0 then hardStart
          else phase2 doc hardStart safeEnd fuel prevStart

/-- `comparePositions(softStart, hardStart) < 0 ? hardStart : softStart`:
clamp the soft start so it never precedes the hard start. -/
def clampStart (hardStart softStart : Pos) : Pos :=
  if comparePositions softStart hardStart < 0 then hardStart else softStart

/-- `comparePositions(softEnd, hardEnd) > 0 ? hardEnd : softEnd`:
clamp the soft end so it never exceeds the hard end. -/
def clampEnd (hardEnd softEnd : Pos) : Pos :=
  if comparePositions softEnd hardEnd > 0 then hardEnd else softEnd

/-- The final `safeEnd` of `expandRangeToSentence`: phase 1 started from
the clamped soft end, with the clamped soft start as the fixed segment
start. -/
def expandEnd (doc : Doc) (hardStart hardEnd softStart softEnd : Pos) : Pos :=
  phase1 doc hardEnd (clampStart hardStart softStart) (posFuel doc)
    (clampEnd hardEnd softEnd)

/-- The final `safeStart` of `expandRangeToSentence`: phase 2 started
from the clamped soft start, against the end phase 1 produced. -/
def expandStart (doc : Doc) (hardStart hardEnd softStart softEnd : Pos) : Pos :=
  phase2 doc hardStart (expandEnd doc hardStart hardEnd softStart softEnd)
    (posFuel doc) (clampStart hardStart softStart)

/-- Steps 2–4 of `expandRangeToSentence` once the hard limits exist:
clamp the soft boundaries into the hard sandbox, run phase 1 on the end,
then phase 2 on the start; returns `(safeStart, safeEnd)`. -/
def expandCore (doc : Doc) (hardStart hardEnd softStart softEnd : Pos) :
    Pos × Pos :=
  (expandStart doc hardStart hardEnd softStart softEnd,
   expandEnd doc hardStart hardEnd softStart softEnd)

/-- Embeds `expandRangeToSentence` (default options) on normalized
positions.  `none` models the `range.cloneRange()` fallback taken when a
hard limit cannot be computed; with in-document inputs this never
happens.  The boundary root resolution and position normalization have
already produced `doc`, `startPos` and `endPos`; the soft searches fall
back to the hard limits when they fail. -/
def expandRangeToSentence (doc : Doc) (startPos endPos : Pos) :
    Option (Pos × Pos) :=
  match findSentenceStartWithin doc startPos.leaf startPos.off hardTerminators,
        findSentenceEndWithin doc endPos.leaf endPos.off hardTerminators with
  | some hardStart, some hardEnd =>
    some (expandCore doc hardStart hardEnd
      ((findSentenceStartWithin doc startPos.leaf startPos.off allTerminators).getD hardStart)
      ((findSentenceEndWithin doc endPos.leaf endPos.off allTerminators).getD hardEnd))
  | _, _ => none

/-- Document order on positions: `posLe a b` iff `comparePositions a b ≤ 0`. -/
def posLe (a b : Pos) : Prop :=
  a.leaf < b.leaf ∨ (a.leaf = b.leaf ∧ a.off ≤ b.off)

/-- Strict document order on positions: `posLt a b` iff
`comparePositions a b < 0`. -/
def posLt (a b : Pos) : Prop :=
  a.leaf < b.leaf ∨ (a.leaf = b.leaf ∧ a.off < b.off)

instance (a b : Pos) : Decidable (posLe a b) :=
  inferInstanceAs (Decidable (_ ∨ _))

instance (a b : Pos) : Decidable (posLt a b) :=
  inferInstanceAs (Decidable (_ ∨ _))

/-- The single-paragraph document of the idempotence counterexample: one
text leaf holding two sentences. -/
def exampleDoc : Doc :=
  [⟨"Hi there world. It has a new chip.".toList, 0⟩]

/-- The validity/cleanup verdict of the §4.5 gate cascade, written from
the spec's numbered gate list: (1) no selection/empty range → invalid,
cleanup; (2) global feature toggle off → invalid, cleanup; (3) the
trigger's own toggle off → invalid, no cleanup; (4) empty after trim →
invalid, cleanup; (5) over the length maximum → invalid, cleanup;
(6) contentless → invalid, no cleanup; (7) language suppression — forced
for the click triggers, behind the user toggle for the icon trigger —
suppressed → invalid, cleanup; (8) inside an editable element → invalid,
cleanup; inside the engine's own UI → invalid, no cleanup; (9) valid, no
cleanup.  Returns `(isValid, shouldCleanup)`. -/
def specGateVerdict (detect : Str → Option String)
    (maxSelectionLength : Nat) (defaults : PipelineDefaults)
    (selection : Option SelectionModel) (settings : Option UserSettings)
    (trigger : ValidationTrigger) : Bool × Bool :=
  match selection with
  | none => (false, true)
  | some sel =>
    if sel.rangeCount = 0 then (false, true)
    else if !((settings.bind UserSettings.enableTapWord).getD true) then (false, true)
    else if trigger = .icon ∧ !((settings.bind UserSettings.showIcon).getD true) then
      (false, false)
    else if trigger = .doubleClickWord ∧
        !((settings.bind UserSettings.doubleClickTranslateV2).getD true) then
      (false, false)
    else if trigger = .doubleClickSentence ∧
        !((settings.bind UserSettings.doubleClickSentenceTranslate).getD true) then
      (false, false)
    else
      let selectedText := jsTrim sel.range.cleanText
      if selectedText.length = 0 then (false, true)
      else if utf16Len selectedText > maxSelectionLength then (false, true)
      else if isContentless selectedText then (false, false)
      else
        let suppressed :=
          isNativeLanguageAsync detect selectedText
            (effectiveTargetLang settings defaults) (some sel.range.contextText)
        let suppressionActive :=
          if trigger = .doubleClickWord ∨ trigger = .doubleClickSentence then true
          else (settings.bind UserSettings.suppressNativeLanguage).getD
            defaults.suppressNativeLanguage
        if suppressionActive ∧ suppressed then (false, true)
        else if sel.range.insideEditable then (false, true)
        else if sel.range.insideExtensionUi then (false, false)
        else (true, false)

/-- `startsWith needle hay`: `needle` is a prefix of `hay`. -/
def startsWith : Str → Str → Bool
  | [], _ => true
  | _ :: _, [] => false
  | a :: as, b :: bs => (a = b) && startsWith as bs

/-- `containsSub needle hay`: `needle` occurs contiguously inside `hay`
(the `String.prototype.includes` test used to phrase "reason contains"). -/
def containsSub (needle : Str) : Str → Bool
  | [] => needle.isEmpty
  | c :: rest => startsWith needle (c :: rest) || containsSub needle rest

/-! ## Order and validity infrastructure for the expander -/

theorem compare_nonpos_iff (a b : Pos) : comparePositions a b ≤ 0 ↔ posLe a b := by
  unfold comparePositions posLe
  split
  · omega
  · split <;> omega

theorem compare_neg_iff (a b : Pos) : comparePositions a b < 0 ↔ posLt a b := by
  unfold comparePositions posLt
  split
  · omega
  · split <;> omega

theorem compare_nonneg_iff (a b : Pos) : 0 ≤ comparePositions a b ↔ posLe b a := by
  unfold comparePositions posLe
  split
  · omega
  · split <;> omega

theorem compare_pos_iff (a b : Pos) : 0 < comparePositions a b ↔ posLt b a := by
  unfold comparePositions posLt
  split
  · omega
  · split <;> omega

theorem posLe_refl (a : Pos) : posLe a a := Or.inr ⟨rfl, Nat.le_refl _⟩

theorem posLe_trans {a b c : Pos} (h1 : posLe a b) (h2 : posLe b c) : posLe a c := by
  unfold posLe at *
  omega

theorem posLt_le {a b : Pos} (h : posLt a b) : posLe a b := by
  unfold posLt posLe at *
  omega

theorem firstIdxP_lt_length {p : Char → Bool} : ∀ {s : Str} {i : Nat},
    firstIdxP p s = some i → i < s.length := by
  intro s
  induction s with
  | nil => intro i h; simp [firstIdxP] at h
  | cons c rest ih =>
    intro i h
    unfold firstIdxP at h
    split at h
    · simp at h
      simp [List.length_cons]
      omega
    · cases hr : firstIdxP p rest with
      | none => rw [hr] at h; simp at h
      | some j =>
        rw [hr] at h; simp at h
        have := ih hr
        simp [List.length_cons]
        omega

theorem lastTermIdx_lt_length {s : Str} {terms : List Char} {i : Nat}
    (h : lastTermIdx s terms = some i) : i < s.length := by
  unfold lastTermIdx at h
  cases hr : firstIdxP (fun c => terms.contains c) s.reverse with
  | none => rw [hr] at h; simp at h
  | some j =>
    rw [hr] at h
    simp at h
    have hj := firstIdxP_lt_length hr
    rw [List.length_reverse] at hj
    omega

theorem firstTermIdx_lt_length {s : Str} {terms : List Char} {i : Nat}
    (h : firstTermIdx s terms = some i) : i < s.length :=
  firstIdxP_lt_length h

theorem findStartFrom_le {doc : Doc} {terms : List Char} :
    ∀ {p : Nat} {q : Pos}, findStartFrom doc terms p = some q → posLe q ⟨p, 0⟩ := by
  intro p
  induction p with
  | zero =>
    intro q h
    unfold findStartFrom at h
    split at h
    · simp at h
    · simp at h
      subst h
      exact posLe_refl _
  | succ n ih =>
    intro q h
    unfold findStartFrom at h
    split at h
    · simp at h
      subst h
      exact posLe_refl _
    · split at h
      · simp at h
        subst h
        exact Or.inl (Nat.lt_succ_self n)
      · have := ih h
        unfold posLe at this ⊢
        simp at this ⊢
        omega

theorem findStartFrom_valid {doc : Doc} {terms : List Char} :
    ∀ {p : Nat} {q : Pos}, p < doc.length → findStartFrom doc terms p = some q →
      ValidPos doc q := by
  intro p
  induction p with
  | zero =>
    intro q hp h
    unfold findStartFrom at h
    split at h
    · simp at h
    · simp at h
      subst h
      exact ⟨hp, Nat.zero_le _⟩
  | succ n ih =>
    intro q hp h
    unfold findStartFrom at h
    split at h
    · simp at h
      subst h
      exact ⟨hp, Nat.zero_le _⟩
    · split at h
      next j hj =>
        simp at h
        subst h
        exact ⟨Nat.lt_of_succ_lt hp, lastTermIdx_lt_length hj⟩
      next =>
        exact ih (Nat.lt_of_succ_lt hp) h

theorem findStartFrom_isSome {doc : Doc} {terms : List Char}
    (hne : doc ≠ []) : ∀ (p : Nat), (findStartFrom doc terms p).isSome := by
  intro p
  induction p with
  | zero =>
    unfold findStartFrom
    split
    · simp_all
    · simp
  | succ n ih =>
    unfold findStartFrom
    split
    · simp
    · split
      · simp
      · exact ih

theorem findSentenceStartWithin_le {doc : Doc} {n off : Nat} {terms : List Char}
    {q : Pos} (h : findSentenceStartWithin doc n off terms = some q) :
    posLe q ⟨n, off⟩ := by
  unfold findSentenceStartWithin at h
  split at h
  next i hi =>
    simp at h
    subst h
    have h1 := lastTermIdx_lt_length hi
    have h2 : ((textOf doc n).take off).length ≤ off := by
      simp [List.length_take]
    refine Or.inr ⟨rfl, ?_⟩
    dsimp only
    omega
  next =>
    exact posLe_trans (findStartFrom_le h) (Or.inr ⟨rfl, Nat.zero_le _⟩)

theorem findSentenceStartWithin_valid {doc : Doc} {n off : Nat} {terms : List Char}
    {q : Pos} (hn : n < doc.length)
    (h : findSentenceStartWithin doc n off terms = some q) : ValidPos doc q := by
  unfold findSentenceStartWithin at h
  split at h
  next i hi =>
    simp at h
    subst h
    have h1 := lastTermIdx_lt_length hi
    have h2 : ((textOf doc n).take off).length ≤ (textOf doc n).length := by
      simp [List.length_take]
    refine ⟨hn, ?_⟩
    unfold leafLen
    dsimp only
    omega
  next =>
    exact findStartFrom_valid hn h

theorem findSentenceStartWithin_isSome {doc : Doc} {n off : Nat} {terms : List Char}
    (hne : doc ≠ []) : (findSentenceStartWithin doc n off terms).isSome := by
  unfold findSentenceStartWithin
  split
  · simp
  · exact findStartFrom_isSome hne _

theorem findEndFromAux_ge {doc : Doc} {terms : List Char} :
    ∀ {fuel p : Nat} {q : Pos}, p < doc.length →
      findEndFromAux doc terms fuel p = some q → posLe ⟨p, leafLen doc p⟩ q := by
  intro fuel
  induction fuel with
  | zero =>
    intro p q hp h
    unfold findEndFromAux at h
    split at h
    · simp at h
    · simp at h
      subst h
      rcases Nat.lt_or_ge p (doc.length - 1) with hlt | hge
      · exact Or.inl hlt
      · have hpe : p = doc.length - 1 := by omega
        subst hpe
        exact posLe_refl _
  | succ fuel ih =>
    intro p q hp h
    unfold findEndFromAux at h
    split at h
    next hnext =>
      split at h
      · simp at h
        subst h
        exact posLe_refl _
      · split at h
        next j hj =>
          simp at h
          subst h
          exact Or.inl (Nat.lt_succ_self p)
        next =>
          exact posLe_trans (Or.inl (Nat.lt_succ_self p)) (ih hnext h)
    next hnext =>
      split at h
      · simp at h
      · simp at h
        subst h
        have hpe : p = doc.length - 1 := by omega
        subst hpe
        exact posLe_refl _

theorem findEndFromAux_valid {doc : Doc} {terms : List Char} :
    ∀ {fuel p : Nat} {q : Pos}, p < doc.length →
      findEndFromAux doc terms fuel p = some q → ValidPos doc q := by
  intro fuel
  induction fuel with
  | zero =>
    intro p q hp h
    unfold findEndFromAux at h
    split at h
    · simp at h
    · simp at h
      subst h
      refine ⟨?_, Nat.le_refl _⟩
      dsimp only
      omega
  | succ fuel ih =>
    intro p q hp h
    unfold findEndFromAux at h
    split at h
    next hnext =>
      split at h
      · simp at h
        subst h
        exact ⟨hp, Nat.le_refl _⟩
      · split at h
        next j hj =>
          simp at h
          subst h
          exact ⟨hnext, firstTermIdx_lt_length hj⟩
        next =>
          exact ih hnext h
    next hnext =>
      split at h
      · simp at h
      · simp at h
        subst h
        refine ⟨?_, Nat.le_refl _⟩
        dsimp only
        omega

theorem findEndFromAux_isSome {doc : Doc} {terms : List Char}
    (hne : doc ≠ []) : ∀ (fuel p : Nat), (findEndFromAux doc terms fuel p).isSome := by
  intro fuel
  induction fuel with
  | zero =>
    intro p
    unfold findEndFromAux
    split
    · simp_all
    · simp
  | succ fuel ih =>
    intro p
    unfold findEndFromAux
    split
    · split
      · simp
      · split
        · simp
        · exact ih _
    · split
      · simp_all
      · simp

theorem findSentenceEndWithin_ge {doc : Doc} {n off : Nat} {terms : List Char}
    {q : Pos} (hn : n < doc.length) (hoff : off ≤ leafLen doc n)
    (h : findSentenceEndWithin doc n off terms = some q) : posLe ⟨n, off⟩ q := by
  unfold findSentenceEndWithin at h
  split at h
  next i hi =>
    simp at h
    subst h
    refine Or.inr ⟨rfl, ?_⟩
    dsimp only
    omega
  next =>
    refine posLe_trans ?_ (findEndFromAux_ge hn h)
    refine Or.inr ⟨rfl, ?_⟩
    dsimp only
    exact hoff

theorem findSentenceEndWithin_valid {doc : Doc} {n off : Nat} {terms : List Char}
    {q : Pos} (hn : n < doc.length)
    (h : findSentenceEndWithin doc n off terms = some q) : ValidPos doc q := by
  unfold findSentenceEndWithin at h
  split at h
  next i hi =>
    simp at h
    subst h
    have h1 := firstTermIdx_lt_length hi
    have h2 : ((textOf doc n).drop off).length = (textOf doc n).length - off := by
      simp [List.length_drop]
    refine ⟨hn, ?_⟩
    unfold leafLen
    dsimp only
    omega
  next =>
    exact findEndFromAux_valid hn h

theorem findSentenceEndWithin_isSome {doc : Doc} {n off : Nat} {terms : List Char}
    (hne : doc ≠ []) : (findSentenceEndWithin doc n off terms).isSome := by
  unfold findSentenceEndWithin
  split
  · simp
  · exact findEndFromAux_isSome hne _ _

theorem phase1_le_hard {doc : Doc} {hardEnd safeStart : Pos} :
    ∀ {fuel : Nat} {safeEnd : Pos}, posLe safeEnd hardEnd →
      posLe (phase1 doc hardEnd safeStart fuel safeEnd) hardEnd := by
  intro fuel
  induction fuel with
  | zero => intro safeEnd h; exact h
  | succ fuel ih =>
    intro safeEnd h
    unfold phase1
    split
    · exact h
    · split
      · exact posLe_refl _
      · split
        · exact posLe_refl _
        next h2 =>
          split
          · exact posLe_refl _
          next h3 =>
            refine ih (posLt_le ((compare_neg_iff _ _).mp ?_))
            omega

theorem phase1_ge {doc : Doc} {hardEnd safeStart ep : Pos} :
    ∀ {fuel : Nat} {safeEnd : Pos}, posLe ep safeEnd → posLe ep hardEnd →
      posLe ep (phase1 doc hardEnd safeStart fuel safeEnd) := by
  intro fuel
  induction fuel with
  | zero => intro safeEnd h _; exact h
  | succ fuel ih =>
    intro safeEnd h hhard
    unfold phase1
    split
    · exact h
    · split
      · exact hhard
      · split
        · exact hhard
        next h2 =>
          split
          · exact hhard
          next h3 =>
            refine ih (posLe_trans h (posLt_le ((compare_pos_iff _ _).mp ?_))) hhard
            omega

theorem phase1_valid {doc : Doc} {hardEnd safeStart : Pos} :
    ∀ {fuel : Nat} {safeEnd : Pos}, ValidPos doc safeEnd → ValidPos doc hardEnd →
      ValidPos doc (phase1 doc hardEnd safeStart fuel safeEnd) := by
  intro fuel
  induction fuel with
  | zero => intro safeEnd h _; exact h
  | succ fuel ih =>
    intro safeEnd h hhard
    unfold phase1
    split
    · exact h
    · split
      · exact hhard
      · split
        · exact hhard
        next nextEnd hfind h2 =>
          split
          · exact hhard
          next h3 =>
            exact ih (findSentenceEndWithin_valid h.1 hfind) hhard

theorem phase2_ge_hard {doc : Doc} {hardStart safeEnd : Pos} :
    ∀ {fuel : Nat} {safeStart : Pos}, posLe hardStart safeStart →
      posLe hardStart (phase2 doc hardStart safeEnd fuel safeStart) := by
  intro fuel
  induction fuel with
  | zero => intro safeStart h; exact h
  | succ fuel ih =>
    intro safeStart h
    unfold phase2
    split
    · exact h
    · split
      · exact posLe_refl _
      · split
        · exact posLe_refl _
        · split
          · exact posLe_refl _
          next h2 =>
            split
            · exact posLe_refl _
            next h3 =>
              refine ih (posLt_le ((compare_pos_iff _ _).mp ?_))
              omega

theorem phase2_le {doc : Doc} {hardStart safeEnd sp : Pos} :
    ∀ {fuel : Nat} {safeStart : Pos}, posLe safeStart sp → posLe hardStart sp →
      posLe (phase2 doc hardStart safeEnd fuel safeStart) sp := by
  intro fuel
  induction fuel with
  | zero => intro safeStart h _; exact h
  | succ fuel ih =>
    intro safeStart h hhard
    unfold phase2
    split
    · exact h
    · split
      · exact hhard
      · split
        · exact hhard
        · split
          · exact hhard
          next h2 =>
            split
            · exact hhard
            next h3 =>
              refine ih (posLe_trans (posLt_le ((compare_neg_iff _ _).mp ?_)) h) hhard
              omega

theorem searchPosBack_valid {doc : Doc} {s sp : Pos} (hs : ValidPos doc s)
    (h : searchPosBack doc s = some sp) : sp.leaf < doc.length := by
  unfold searchPosBack at h
  split at h
  · simp at h
    subst h
    exact hs.1
  · split at h
    · simp at h
    · simp at h
      subst h
      dsimp only
      have := hs.1
      omega

theorem phase2_valid {doc : Doc} {hardStart safeEnd : Pos} :
    ∀ {fuel : Nat} {safeStart : Pos}, ValidPos doc safeStart → ValidPos doc hardStart →
      ValidPos doc (phase2 doc hardStart safeEnd fuel safeStart) := by
  intro fuel
  induction fuel with
  | zero => intro safeStart h _; exact h
  | succ fuel ih =>
    intro safeStart h hhard
    unfold phase2
    split
    · exact h
    · split
      · exact hhard
      next sp hsp =>
        split
        · exact hhard
        next prevStart hfind =>
          split
          · exact hhard
          next h2 =>
            split
            · exact hhard
            next h3 =>
              exact ih (findSentenceStartWithin_valid (searchPosBack_valid h hsp) hfind) hhard


theorem clampStart_ge_hard (hardStart softStart : Pos) :
    posLe hardStart (clampStart hardStart softStart) := by
  unfold clampStart
  split
  · exact posLe_refl _
  next h =>
    refine (compare_nonneg_iff _ _).mp ?_
    omega

theorem clampStart_le {hardStart softStart sp : Pos}
    (h1 : posLe hardStart sp) (h2 : posLe softStart sp) :
    posLe (clampStart hardStart softStart) sp := by
  unfold clampStart
  split
  · exact h1
  · exact h2

theorem clampStart_valid {doc : Doc} {hardStart softStart : Pos}
    (h1 : ValidPos doc hardStart) (h2 : ValidPos doc softStart) :
    ValidPos doc (clampStart hardStart softStart) := by
  unfold clampStart
  split
  · exact h1
  · exact h2

theorem clampEnd_le_hard (hardEnd softEnd : Pos) :
    posLe (clampEnd hardEnd softEnd) hardEnd := by
  unfold clampEnd
  split
  · exact posLe_refl _
  next h =>
    refine (compare_nonpos_iff _ _).mp ?_
    omega

theorem clampEnd_ge {hardEnd softEnd ep : Pos}
    (h1 : posLe ep hardEnd) (h2 : posLe ep softEnd) :
    posLe ep (clampEnd hardEnd softEnd) := by
  unfold clampEnd
  split
  · exact h1
  · exact h2

theorem clampEnd_valid {doc : Doc} {hardEnd softEnd : Pos}
    (h1 : ValidPos doc hardEnd) (h2 : ValidPos doc softEnd) :
    ValidPos doc (clampEnd hardEnd softEnd) := by
  unfold clampEnd
  split
  · exact h1
  · exact h2

/-- Master lemma: at in-document positions the expander succeeds, its
result contains the input, stays within the hard limits, and consists of
in-document positions. -/
theorem expand_props {doc : Doc} {sp ep : Pos}
    (hsp : ValidPos doc sp) (hep : ValidPos doc ep) :
    ∃ s e, expandRangeToSentence doc sp ep = some (s, e) ∧
      posLe s sp ∧ posLe ep e ∧ ValidPos doc s ∧ ValidPos doc e ∧
      ∃ hardStart hardEnd,
        findSentenceStartWithin doc sp.leaf sp.off hardTerminators = some hardStart ∧
        findSentenceEndWithin doc ep.leaf ep.off hardTerminators = some hardEnd ∧
        posLe hardStart s ∧ posLe e hardEnd := by
  have hne : doc ≠ [] := by
    intro hnil
    have := hsp.1
    rw [hnil] at this
    simp at this
  obtain ⟨hardStart, hhs⟩ :=
    Option.isSome_iff_exists.mp
      (@findSentenceStartWithin_isSome doc sp.leaf sp.off hardTerminators hne)
  obtain ⟨hardEnd, hhe⟩ :=
    Option.isSome_iff_exists.mp
      (@findSentenceEndWithin_isSome doc ep.leaf ep.off hardTerminators hne)
  have hhsLe : posLe hardStart sp := findSentenceStartWithin_le hhs
  have hhsValid : ValidPos doc hardStart := findSentenceStartWithin_valid hsp.1 hhs
  have hheGe : posLe ep hardEnd := findSentenceEndWithin_ge hep.1 hep.2 hhe
  have hheValid : ValidPos doc hardEnd := findSentenceEndWithin_valid hep.1 hhe
  have hssLe :
      posLe ((findSentenceStartWithin doc sp.leaf sp.off allTerminators).getD hardStart) sp := by
    cases hfs : findSentenceStartWithin doc sp.leaf sp.off allTerminators with
    | none => simpa using hhsLe
    | some q => simpa using findSentenceStartWithin_le hfs
  have hssValid :
      ValidPos doc ((findSentenceStartWithin doc sp.leaf sp.off allTerminators).getD hardStart) := by
    cases hfs : findSentenceStartWithin doc sp.leaf sp.off allTerminators with
    | none => simpa using hhsValid
    | some q => simpa using findSentenceStartWithin_valid hsp.1 hfs
  have hseGe :
      posLe ep ((findSentenceEndWithin doc ep.leaf ep.off allTerminators).getD hardEnd) := by
    cases hfs : findSentenceEndWithin doc ep.leaf ep.off allTerminators with
    | none => simpa using hheGe
    | some q => simpa using findSentenceEndWithin_ge hep.1 hep.2 hfs
  have hseValid :
      ValidPos doc ((findSentenceEndWithin doc ep.leaf ep.off allTerminators).getD hardEnd) := by
    cases hfs : findSentenceEndWithin doc ep.leaf ep.off allTerminators with
    | none => simpa using hheValid
    | some q => simpa using findSentenceEndWithin_valid hep.1 hfs
  refine ⟨expandStart doc hardStart hardEnd
      ((findSentenceStartWithin doc sp.leaf sp.off allTerminators).getD hardStart)
      ((findSentenceEndWithin doc ep.leaf ep.off allTerminators).getD hardEnd),
    expandEnd doc hardStart hardEnd
      ((findSentenceStartWithin doc sp.leaf sp.off allTerminators).getD hardStart)
      ((findSentenceEndWithin doc ep.leaf ep.off allTerminators).getD hardEnd),
    ?_, ?_, ?_, ?_, ?_, hardStart, hardEnd, hhs, hhe, ?_, ?_⟩
  · unfold expandRangeToSentence
    rw [hhs, hhe]
    rfl
  · unfold expandStart
    exact phase2_le (clampStart_le hhsLe hssLe) hhsLe
  · unfold expandEnd
    exact phase1_ge (clampEnd_ge hheGe hseGe) hheGe
  · unfold expandStart
    exact phase2_valid (clampStart_valid hhsValid hssValid) hhsValid
  · unfold expandEnd
    exact phase1_valid (clampEnd_valid hheValid hseValid) hheValid
  · unfold expandStart
    exact phase2_ge_hard (clampStart_ge_hard _ _)
  · unfold expandEnd
    exact phase1_le_hard (clampEnd_le_hard _ _)



theorem wordCharAt_lt_length {text : Str} {i : Nat}
    (h : wordCharAt text i = true) : i < text.length := by
  unfold wordCharAt at h
  cases hg : text.get? i with
  | none => rw [hg] at h; simp at h
  | some c => exact (List.get?_eq_some.mp hg).1

theorem findWordStart_spec (text : Str) : ∀ i : Nat,
    findWordStart text i ≤ i ∧
    (∀ k, findWordStart text i ≤ k → k < i → wordCharAt text k = true) ∧
    (findWordStart text i = 0 ∨ wordCharAt text (findWordStart text i - 1) = false) := by
  intro i
  induction i with
  | zero =>
    refine ⟨Nat.le_refl _, ?_, Or.inl rfl⟩
    intro k _ hk
    omega
  | succ n ih =>
    unfold findWordStart
    split
    next hw =>
      obtain ⟨ih1, ih2, ih3⟩ := ih
      refine ⟨Nat.le_trans ih1 (Nat.le_succ n), ?_, ih3⟩
      intro k h1 h2
      rcases Nat.lt_or_ge k n with hk | hk
      · exact ih2 k h1 hk
      · have hke : k = n := by omega
        subst hke
        exact hw
    next hw =>
      refine ⟨Nat.le_refl _, ?_, Or.inr ?_⟩
      · intro k h1 h2
        omega
      · simp only [Nat.add_sub_cancel]
        exact Bool.eq_false_iff.mpr hw

theorem findWordEndAux_spec (text : Str) : ∀ (fuel idx : Nat),
    idx ≤ text.length → text.length + 1 ≤ fuel + idx →
    idx ≤ findWordEndAux text fuel idx ∧
    findWordEndAux text fuel idx ≤ text.length ∧
    (∀ k, idx ≤ k → k < findWordEndAux text fuel idx → wordCharAt text k = true) ∧
    (findWordEndAux text fuel idx = text.length ∨
      wordCharAt text (findWordEndAux text fuel idx) = false) := by
  intro fuel
  induction fuel with
  | zero =>
    intro idx h1 h2
    omega
  | succ fuel ih =>
    intro idx h1 h2
    unfold findWordEndAux
    split
    next hw =>
      simp only [Bool.and_eq_true, decide_eq_true_eq] at hw
      obtain ⟨ih1, ih2, ih3, ih4⟩ := ih (idx + 1) hw.1 (by omega)
      refine ⟨by omega, ih2, ?_, ih4⟩
      intro k hk1 hk2
      rcases Nat.lt_or_ge k (idx + 1) with hk | hk
      · have hke : k = idx := by omega
        subst hke
        exact hw.2
      · exact ih3 k hk hk2
    next hw =>
      refine ⟨Nat.le_refl _, h1, ?_, ?_⟩
      · intro k hk1 hk2
        omega
      · rw [Bool.and_eq_true] at hw
        push_neg at hw
        rcases Nat.lt_or_ge idx text.length with hlt | hge
        · right
          have := hw (by simpa using hlt)
          simpa using this
        · left
          omega

/-- C6: word resolution around a caret — the step-back rule, the failure
rule, and maximality of the returned span. -/
theorem expandRangeToWord_spec (text : Str) (offset : Nat) :
    (wordCharAt text (wordAdjustedIndex text offset) = false →
      expandRangeToWord text offset = none) ∧
    (wordCharAt text (wordAdjustedIndex text offset) = true →
      ∃ s e, expandRangeToWord text offset = some (s, e) ∧
        s ≤ wordAdjustedIndex text offset ∧ wordAdjustedIndex text offset < e ∧
        e ≤ text.length ∧ s < e ∧
        (∀ k, s ≤ k → k < e → wordCharAt text k = true) ∧
        (s = 0 ∨ wordCharAt text (s - 1) = false) ∧
        (e = text.length ∨ wordCharAt text e = false)) := by
  constructor
  · intro hw
    unfold expandRangeToWord
    rw [hw]
    simp
  · intro hw
    have hlt : wordAdjustedIndex text offset < text.length := wordCharAt_lt_length hw
    obtain ⟨hs1, hs2, hs3⟩ := findWordStart_spec text (wordAdjustedIndex text offset)
    obtain ⟨he1, he2, he3, he4⟩ := findWordEndAux_spec text (text.length + 1)
      (wordAdjustedIndex text offset) (by omega) (by omega)
    have he1' : wordAdjustedIndex text offset <
        findWordEnd text (wordAdjustedIndex text offset) := by
      unfold findWordEnd
      rcases Nat.eq_or_lt_of_le he1 with heq | hlt2
      · rcases he4 with h4 | h4
        · omega
        · rw [← heq, hw] at h4
          simp at h4
      · exact hlt2
    have hne : findWordStart text (wordAdjustedIndex text offset) ≠
        findWordEnd text (wordAdjustedIndex text offset) := by
      omega
    unfold expandRangeToWord
    rw [if_neg (by omega), hw]
    simp only [Bool.not_true, Bool.false_eq_true, if_false]
    rw [if_neg hne]
    refine ⟨_, _, rfl, hs1, he1', ?_, by omega, ?_, hs3, ?_⟩
    · unfold findWordEnd
      exact he2
    · intro k h1 h2
      unfold findWordEnd at h2
      rcases Nat.lt_or_ge k (wordAdjustedIndex text offset) with hk | hk
      · exact hs2 k h1 hk
      · rcases Nat.eq_or_lt_of_le hk with hk2 | hk2
        · rw [hk2] at hw
          exact hw
        · exact he3 k (by omega) h2
    · unfold findWordEnd
      exact he4



/-- C2: the result of expansion never leaves the hard-terminator sandbox
computed from the same input, the clamped initial soft boundaries lie in
the sandbox, and every iterate of either phase stays in it. -/
theorem expand_hard_bound {doc : Doc} {sp ep : Pos}
    (hsp : ValidPos doc sp) (hep : ValidPos doc ep) :
    ∃ hardStart hardEnd s e,
      findSentenceStartWithin doc sp.leaf sp.off hardTerminators = some hardStart ∧
      findSentenceEndWithin doc ep.leaf ep.off hardTerminators = some hardEnd ∧
      expandRangeToSentence doc sp ep = some (s, e) ∧
      posLe hardStart s ∧ posLe e hardEnd ∧
      (∀ softStart softEnd : Pos,
        posLe hardStart (clampStart hardStart softStart) ∧
        posLe (clampEnd hardEnd softEnd) hardEnd) ∧
      (∀ (q : Pos) (fuel : Nat) (x : Pos), posLe hardStart x →
        posLe hardStart (phase2 doc hardStart q fuel x)) ∧
      (∀ (q : Pos) (fuel : Nat) (x : Pos), posLe x hardEnd →
        posLe (phase1 doc hardEnd q fuel x) hardEnd) := by
  obtain ⟨s, e, hexp, _, _, _, _, hardStart, hardEnd, hhs, hhe, h1, h2⟩ :=
    expand_props hsp hep
  refine ⟨hardStart, hardEnd, s, e, hhs, hhe, hexp, h1, h2, ?_, ?_, ?_⟩
  · intro ss se
    exact ⟨clampStart_ge_hard _ _, clampEnd_le_hard _ _⟩
  · intro q fuel x hx
    exact phase2_ge_hard hx
  · intro q fuel x hx
    exact phase1_le_hard hx

/-- C2 witness. -/
theorem expand_hard_bound_witness :
    ValidPos exampleDoc ⟨0, 9⟩ ∧ ValidPos exampleDoc ⟨0, 14⟩ ∧
    (∃ hardStart hardEnd s e,
      findSentenceStartWithin exampleDoc 0 9 hardTerminators = some hardStart ∧
      findSentenceEndWithin exampleDoc 0 14 hardTerminators = some hardEnd ∧
      expandRangeToSentence exampleDoc ⟨0, 9⟩ ⟨0, 14⟩ = some (s, e) ∧
      posLe hardStart s ∧ posLe e hardEnd ∧
      (∀ softStart softEnd : Pos,
        posLe hardStart (clampStart hardStart softStart) ∧
        posLe (clampEnd hardEnd softEnd) hardEnd) ∧
      (∀ (q : Pos) (fuel : Nat) (x : Pos), posLe hardStart x →
        posLe hardStart (phase2 exampleDoc hardStart q fuel x)) ∧
      (∀ (q : Pos) (fuel : Nat) (x : Pos), posLe x hardEnd →
        posLe (phase1 exampleDoc hardEnd q fuel x) hardEnd)) :=
  ⟨by decide, by decide, @expand_hard_bound exampleDoc ⟨0, 9⟩ ⟨0, 14⟩ (by decide) (by decide)⟩

/-- C3: the expanded range contains the (normalized) input range. -/
theorem expand_contains {doc : Doc} {sp ep : Pos}
    (hsp : ValidPos doc sp) (hep : ValidPos doc ep) :
    ∃ s e, expandRangeToSentence doc sp ep = some (s, e) ∧
      comparePositions s sp ≤ 0 ∧ comparePositions ep e ≤ 0 := by
  obtain ⟨s, e, hexp, h1, h2, _⟩ := expand_props hsp hep
  exact ⟨s, e, hexp, (compare_nonpos_iff _ _).mpr h1, (compare_nonpos_iff _ _).mpr h2⟩

/-- C3 witness. -/
theorem expand_contains_witness :
    ValidPos exampleDoc ⟨0, 9⟩ ∧ ValidPos exampleDoc ⟨0, 14⟩ ∧
    (∃ s e, expandRangeToSentence exampleDoc ⟨0, 9⟩ ⟨0, 14⟩ = some (s, e) ∧
      comparePositions s ⟨0, 9⟩ ≤ 0 ∧ comparePositions ⟨0, 14⟩ e ≤ 0) :=
  ⟨by decide, by decide, @expand_contains exampleDoc ⟨0, 9⟩ ⟨0, 14⟩ (by decide) (by decide)⟩

/-- C1 counterexample: re-expanding the already-expanded first sentence
swallows the following sentence, so expansion is not idempotent. -/
theorem expand_not_idempotent :
    expandRangeToSentence exampleDoc ⟨0, 9⟩ ⟨0, 14⟩ = some (⟨0, 0⟩, ⟨0, 15⟩) ∧
    expandRangeToSentence exampleDoc ⟨0, 0⟩ ⟨0, 15⟩ = some (⟨0, 0⟩, ⟨0, 34⟩) ∧
    expandRangeToSentence exampleDoc ⟨0, 0⟩ ⟨0, 15⟩ ≠
      expandRangeToSentence exampleDoc ⟨0, 9⟩ ⟨0, 14⟩ :=
  ⟨by decide, by decide, by decide⟩

/-- C1 amended: re-expansion never shrinks the expanded range — the
second expansion contains the first — but need not equal it. -/
theorem expand_reexpand_contains {doc : Doc} {sp ep : Pos}
    (hsp : ValidPos doc sp) (hep : ValidPos doc ep) :
    ∃ s e s2 e2, expandRangeToSentence doc sp ep = some (s, e) ∧
      expandRangeToSentence doc s e = some (s2, e2) ∧
      posLe s2 s ∧ posLe e e2 := by
  obtain ⟨s, e, hexp, _, _, hvs, hve, _⟩ := expand_props hsp hep
  obtain ⟨s2, e2, hexp2, h1, h2, _⟩ := expand_props hvs hve
  exact ⟨s, e, s2, e2, hexp, hexp2, h1, h2⟩

/-- C1 amended witness. -/
theorem expand_reexpand_contains_witness :
    ValidPos exampleDoc ⟨0, 9⟩ ∧ ValidPos exampleDoc ⟨0, 14⟩ ∧
    (∃ s e s2 e2, expandRangeToSentence exampleDoc ⟨0, 9⟩ ⟨0, 14⟩ = some (s, e) ∧
      expandRangeToSentence exampleDoc s e = some (s2, e2) ∧
      posLe s2 s ∧ posLe e e2) :=
  ⟨by decide, by decide, @expand_reexpand_contains exampleDoc ⟨0, 9⟩ ⟨0, 14⟩ (by decide) (by decide)⟩


theorem length_le_utf16Len : ∀ s : Str, s.length ≤ utf16Len s := by
  intro s
  induction s with
  | nil => simp [utf16Len]
  | cons c rest ih =>
    show rest.length + 1 ≤ (if 0x10000 ≤ c.val.toNat then 2 else 1) + utf16Len rest
    split <;> omega

/-- C8: for target `ko`, suppression happens exactly on Hangul. -/
theorem ko_suppression_iff (detect : Str → Option String) (ctx : Option Str) :
    (∀ text : Str,
      (shouldTriggerTranslationAsync detect text "ko" ctx = false ↔ text.any isHangul = true)) ∧
    shouldTriggerTranslationAsync detect "test".toList "ko" none = true ∧
    shouldTriggerTranslationAsync detect "안녕".toList "ko" none = false ∧
    shouldTriggerTranslationAsync detect "한국어 test".toList "ko" none = false := by
  refine ⟨?_, rfl, rfl, rfl⟩
  intro text
  have hred : shouldTriggerTranslationAsync detect text "ko" ctx =
      (if text.any isHangul then false else true) := rfl
  rw [hred]
  cases h : text.any isHangul <;> simp [h]

/-- C10: empty text is never suppressed, and the zh direct check is
guarded against zero length. -/
theorem empty_text_never_suppressed (detect : Str → Option String)
    (targetLanguage : String) :
    shouldTriggerTranslationAsync detect [] targetLanguage none = true ∧
    zhDirectCheck [] = false := by
  refine ⟨?_, rfl⟩
  dsimp only [shouldTriggerTranslationAsync]
  split
  · rfl
  · split
    · rfl
    · split
      · rfl
      · split
        · rfl
        · split
          · rfl
          · rfl

/-- C5: the zh dispatch — Kana always wins; otherwise the exact Han-ratio
threshold decides the direct-text check. -/
theorem zh_ratio_threshold (detect : Str → Option String) (text : Str)
    (targetLanguage : String) (h : normalizeLang targetLanguage = "zh") :
    (text.any isKana = true →
      ∀ ctx, shouldTriggerTranslationAsync detect text targetLanguage ctx = true) ∧
    (text.any isKana = false → 20 * (text.filter isHan).length > utf16Len text →
      ∀ ctx, shouldTriggerTranslationAsync detect text targetLanguage ctx = false) ∧
    (text.any isKana = false → 20 * (text.filter isHan).length ≤ utf16Len text →
      shouldTriggerTranslationAsync detect text targetLanguage none = true) := by
  have hflen : (text.filter isHan).length ≤ text.length := List.length_filter_le _ _
  have hulen : text.length ≤ utf16Len text := length_le_utf16Len text
  refine ⟨?_, ?_, ?_⟩
  · intro hk ctx
    dsimp only [shouldTriggerTranslationAsync]
    rw [h]
    simp [hk]
  · intro hk hr ctx
    have hd : zhDirectCheck text = true := by
      dsimp only [zhDirectCheck]
      simp only [Bool.and_eq_true, decide_eq_true_eq]
      omega
    dsimp only [shouldTriggerTranslationAsync]
    rw [h]
    simp [hk, hd]
  · intro hk hr
    have hd : zhDirectCheck text = false := by
      dsimp only [zhDirectCheck]
      rw [Bool.and_eq_false_iff]
      right
      simp only [decide_eq_false_iff_not]
      omega
    dsimp only [shouldTriggerTranslationAsync]
    rw [h]
    simp [hk, hd]


theorem validateTail_pair (range : RangeModel) (text' : Str) :
    ((validateTail range text').isValid, (validateTail range text').shouldCleanup) =
    (if range.insideEditable then (false, true)
     else if range.insideExtensionUi then (false, false)
     else (true, false)) := by
  unfold validateTail
  split
  · rfl
  · split
    · rfl
    · rfl

/-- C7: the validator agrees gate-for-gate with the spec's cascade. -/
theorem validate_gate_order (detect : Str → Option String)
    (maxSelectionLength : Nat) (defaults : PipelineDefaults)
    (selection : Option SelectionModel) (settings : Option UserSettings)
    (trigger : ValidationTrigger) :
    ((validateSelectionAsync detect maxSelectionLength defaults selection settings trigger).isValid,
     (validateSelectionAsync detect maxSelectionLength defaults selection settings trigger).shouldCleanup) =
    specGateVerdict detect maxSelectionLength defaults selection settings trigger := by
  cases selection with
  | none => rfl
  | some sel =>
    dsimp only [validateSelectionAsync, specGateVerdict]
    by_cases c0 : sel.rangeCount = 0
    · rw [if_pos c0, if_pos c0]
    rw [if_neg c0, if_neg c0]
    by_cases c1 : (!(settings.bind UserSettings.enableTapWord).getD true) = true
    · rw [if_pos c1, if_pos c1]
    rw [if_neg c1, if_neg c1]
    by_cases c2 : trigger = ValidationTrigger.icon ∧
        (!(settings.bind UserSettings.showIcon).getD true) = true
    · rw [if_pos c2, if_pos c2]
    rw [if_neg c2, if_neg c2]
    by_cases c3 : trigger = ValidationTrigger.doubleClickWord ∧
        (!(settings.bind UserSettings.doubleClickTranslateV2).getD true) = true
    · rw [if_pos c3, if_pos c3]
    rw [if_neg c3, if_neg c3]
    by_cases c4 : trigger = ValidationTrigger.doubleClickSentence ∧
        (!(settings.bind UserSettings.doubleClickSentenceTranslate).getD true) = true
    · rw [if_pos c4, if_pos c4]
    rw [if_neg c4, if_neg c4]
    by_cases c5 : (jsTrim sel.range.cleanText).length = 0
    · rw [if_pos c5, if_pos c5]
    rw [if_neg c5, if_neg c5]
    by_cases c6 : utf16Len (jsTrim sel.range.cleanText) > maxSelectionLength
    · rw [if_pos c6, if_pos c6]
    rw [if_neg c6, if_neg c6]
    by_cases c7 : isContentless (jsTrim sel.range.cleanText) = true
    · rw [if_pos c7, if_pos c7]
    rw [if_neg c7, if_neg c7]
    by_cases c8 : trigger = ValidationTrigger.doubleClickWord ∨
        trigger = ValidationTrigger.doubleClickSentence
    · rw [if_pos c8, if_pos c8]
      by_cases c9 : isNativeLanguageAsync detect (jsTrim sel.range.cleanText)
          (effectiveTargetLang settings defaults) (some sel.range.contextText) = true
      · rw [if_pos c9, if_pos (show (true : Bool) = true ∧ _ from ⟨rfl, c9⟩)]
      · rw [if_neg c9, if_neg (fun h => c9 h.2)]
        exact validateTail_pair _ _
    · rw [if_neg c8, if_neg c8]
      by_cases c10 : (settings.bind UserSettings.suppressNativeLanguage).getD
          defaults.suppressNativeLanguage = true
      · rw [if_pos c10]
        by_cases c11 : (!shouldTriggerTranslationAsync detect (jsTrim sel.range.cleanText)
            (effectiveTargetLang settings defaults) (some sel.range.contextText)) = true
        · rw [if_pos c11, if_pos (⟨c10, c11⟩ :
            _ = true ∧ isNativeLanguageAsync detect (jsTrim sel.range.cleanText)
              (effectiveTargetLang settings defaults) (some sel.range.contextText) = true)]
        · rw [if_neg c11, if_neg (fun h => c11 h.2)]
          exact validateTail_pair _ _
      · rw [if_neg c10, if_neg (fun h => c10 h.1)]
        exact validateTail_pair _ _

/-- C4: click-triggered paths force native-language suppression
independently of the `suppressNativeLanguage` setting; the icon path
consults it. -/
theorem click_forces_suppression (detect : Str → Option String)
    (maxSelectionLength : Nat) (defaults : PipelineDefaults)
    (sel : SelectionModel) (settings : Option UserSettings)
    (trig : ValidationTrigger)
    (htrig : trig = .doubleClickWord ∨ trig = .doubleClickSentence) :
    -- (a) the toggle is ignored on click paths
    (∀ (s : UserSettings) (v : Option Bool),
      validateSelectionAsync detect maxSelectionLength defaults (some sel)
        (some (setSuppress s v)) trig =
      validateSelectionAsync detect maxSelectionLength defaults (some sel)
        (some s) trig) ∧
    -- (b) on a click path, native text yields the suppressed verdict
    (sel.rangeCount ≠ 0 →
      (settings.bind UserSettings.enableTapWord).getD true = true →
      (trig = .doubleClickWord →
        (settings.bind UserSettings.doubleClickTranslateV2).getD true = true) →
      (trig = .doubleClickSentence →
        (settings.bind UserSettings.doubleClickSentenceTranslate).getD true = true) →
      jsTrim sel.range.cleanText ≠ [] →
      utf16Len (jsTrim sel.range.cleanText) ≤ maxSelectionLength →
      isContentless (jsTrim sel.range.cleanText) = false →
      isNativeLanguageAsync detect (jsTrim sel.range.cleanText)
        (effectiveTargetLang settings defaults) (some sel.range.contextText) = true →
      validateSelectionAsync detect maxSelectionLength defaults (some sel) settings trig =
        ⟨false, jsTrim sel.range.cleanText, none,
          "Double-click suppressed on native language", true⟩ ∧
      containsSub "suppressed".toList
        (validateSelectionAsync detect maxSelectionLength defaults (some sel)
          settings trig).reason.toList = true) ∧
    -- (c) the icon path runs suppression when the toggle is on
    (sel.rangeCount ≠ 0 →
      (settings.bind UserSettings.enableTapWord).getD true = true →
      (settings.bind UserSettings.showIcon).getD true = true →
      jsTrim sel.range.cleanText ≠ [] →
      utf16Len (jsTrim sel.range.cleanText) ≤ maxSelectionLength →
      isContentless (jsTrim sel.range.cleanText) = false →
      (settings.bind UserSettings.suppressNativeLanguage).getD
        defaults.suppressNativeLanguage = true →
      shouldTriggerTranslationAsync detect (jsTrim sel.range.cleanText)
        (effectiveTargetLang settings defaults) (some sel.range.contextText) = false →
      validateSelectionAsync detect maxSelectionLength defaults (some sel) settings .icon =
        ⟨false, jsTrim sel.range.cleanText, none,
          "Suppressed by language detector", true⟩) ∧
    -- (d) with the toggle off, the icon path never consults the detector
    (∀ (d1 d2 : Str → Option String),
      (settings.bind UserSettings.suppressNativeLanguage).getD
        defaults.suppressNativeLanguage = false →
      validateSelectionAsync d1 maxSelectionLength defaults (some sel) settings .icon =
      validateSelectionAsync d2 maxSelectionLength defaults (some sel) settings .icon) := by
  refine ⟨?_, ?_, ?_, ?_⟩
  · -- (a)
    intro s v
    have step : ∀ trig2 : ValidationTrigger,
        (trig2 = ValidationTrigger.doubleClickWord ∨
         trig2 = ValidationTrigger.doubleClickSentence) →
        validateSelectionAsync detect maxSelectionLength defaults (some sel)
          (some (setSuppress s v)) trig2 =
        validateSelectionAsync detect maxSelectionLength defaults (some sel)
          (some s) trig2 := by
      intro trig2 htrig2
      dsimp only [validateSelectionAsync, setSuppress, Option.bind]
      by_cases c0 : sel.rangeCount = 0
      · rw [if_pos c0, if_pos c0]
      rw [if_neg c0, if_neg c0]
      by_cases c1 : (!(s.enableTapWord).getD true) = true
      · rw [if_pos c1, if_pos c1]
      rw [if_neg c1, if_neg c1]
      have hni : trig2 ≠ ValidationTrigger.icon := by
        rcases htrig2 with rfl | rfl <;> decide
      rw [if_neg (fun h : trig2 = ValidationTrigger.icon ∧
            (!(s.showIcon).getD true) = true => hni h.1),
          if_neg (fun h : trig2 = ValidationTrigger.icon ∧
            (!(s.showIcon).getD true) = true => hni h.1)]
      by_cases c3 : trig2 = ValidationTrigger.doubleClickWord ∧
          (!(s.doubleClickTranslateV2).getD true) = true
      · rw [if_pos c3, if_pos c3]
      rw [if_neg c3, if_neg c3]
      by_cases c4 : trig2 = ValidationTrigger.doubleClickSentence ∧
          (!(s.doubleClickSentenceTranslate).getD true) = true
      · rw [if_pos c4, if_pos c4]
      rw [if_neg c4, if_neg c4]
      by_cases c5 : (jsTrim sel.range.cleanText).length = 0
      · rw [if_pos c5, if_pos c5]
      rw [if_neg c5, if_neg c5]
      by_cases c6 : utf16Len (jsTrim sel.range.cleanText) > maxSelectionLength
      · rw [if_pos c6, if_pos c6]
      rw [if_neg c6, if_neg c6]
      by_cases c7 : isContentless (jsTrim sel.range.cleanText) = true
      · rw [if_pos c7, if_pos c7]
      rw [if_neg c7, if_neg c7]
      rw [if_pos htrig2, if_pos htrig2]
      rfl
    exact step trig htrig
  · -- (b)
    intro h1 h2 h3 h4 h5 h6 h7 h8
    have hmain : validateSelectionAsync detect maxSelectionLength defaults (some sel)
        settings trig =
        ⟨false, jsTrim sel.range.cleanText, none,
          "Double-click suppressed on native language", true⟩ := by
      rcases htrig with rfl | rfl
      · dsimp only [validateSelectionAsync]
        rw [if_neg h1]
        rw [if_neg (show ¬((!(settings.bind UserSettings.enableTapWord).getD true) = true)
          by simp [h2])]
        rw [if_neg (fun h : ValidationTrigger.doubleClickWord = ValidationTrigger.icon ∧
          (!(settings.bind UserSettings.showIcon).getD true) = true =>
            absurd h.1 (by decide))]
        rw [if_neg (show ¬(ValidationTrigger.doubleClickWord = ValidationTrigger.doubleClickWord ∧
          (!(settings.bind UserSettings.doubleClickTranslateV2).getD true) = true)
          by simp [h3 rfl])]
        rw [if_neg (fun h : ValidationTrigger.doubleClickWord = ValidationTrigger.doubleClickSentence ∧
          (!(settings.bind UserSettings.doubleClickSentenceTranslate).getD true) = true =>
            absurd h.1 (by decide))]
        rw [if_neg (show ¬((jsTrim sel.range.cleanText).length = 0) by simpa using h5)]
        rw [if_neg (by omega : ¬(utf16Len (jsTrim sel.range.cleanText) > maxSelectionLength))]
        rw [if_neg (show ¬(isContentless (jsTrim sel.range.cleanText) = true) by simp [h7])]
        rw [if_pos (Or.inl rfl)]
        rw [if_pos h8]
      · dsimp only [validateSelectionAsync]
        rw [if_neg h1]
        rw [if_neg (show ¬((!(settings.bind UserSettings.enableTapWord).getD true) = true)
          by simp [h2])]
        rw [if_neg (fun h : ValidationTrigger.doubleClickSentence = ValidationTrigger.icon ∧
          (!(settings.bind UserSettings.showIcon).getD true) = true =>
            absurd h.1 (by decide))]
        rw [if_neg (fun h : ValidationTrigger.doubleClickSentence = ValidationTrigger.doubleClickWord ∧
          (!(settings.bind UserSettings.doubleClickTranslateV2).getD true) = true =>
            absurd h.1 (by decide))]
        rw [if_neg (show ¬(ValidationTrigger.doubleClickSentence = ValidationTrigger.doubleClickSentence ∧
          (!(settings.bind UserSettings.doubleClickSentenceTranslate).getD true) = true)
          by simp [h4 rfl])]
        rw [if_neg (show ¬((jsTrim sel.range.cleanText).length = 0) by simpa using h5)]
        rw [if_neg (by omega : ¬(utf16Len (jsTrim sel.range.cleanText) > maxSelectionLength))]
        rw [if_neg (show ¬(isContentless (jsTrim sel.range.cleanText) = true) by simp [h7])]
        rw [if_pos (Or.inr rfl)]
        rw [if_pos h8]
    refine ⟨hmain, ?_⟩
    rw [hmain]
    show containsSub "suppressed".toList
      "Double-click suppressed on native language".toList = true
    decide
  · -- (c)
    intro h1 h2 h3 h5 h6 h7 hsup h8
    dsimp only [validateSelectionAsync]
    rw [if_neg h1]
    rw [if_neg (show ¬((!(settings.bind UserSettings.enableTapWord).getD true) = true)
      by simp [h2])]
    rw [if_neg (show ¬(ValidationTrigger.icon = ValidationTrigger.icon ∧
      (!(settings.bind UserSettings.showIcon).getD true) = true) by simp [h3])]
    rw [if_neg (fun h : ValidationTrigger.icon = ValidationTrigger.doubleClickWord ∧
      (!(settings.bind UserSettings.doubleClickTranslateV2).getD true) = true =>
        absurd h.1 (by decide))]
    rw [if_neg (fun h : ValidationTrigger.icon = ValidationTrigger.doubleClickSentence ∧
      (!(settings.bind UserSettings.doubleClickSentenceTranslate).getD true) = true =>
        absurd h.1 (by decide))]
    rw [if_neg (show ¬((jsTrim sel.range.cleanText).length = 0) by simpa using h5)]
    rw [if_neg (by omega : ¬(utf16Len (jsTrim sel.range.cleanText) > maxSelectionLength))]
    rw [if_neg (show ¬(isContentless (jsTrim sel.range.cleanText) = true) by simp [h7])]
    rw [if_neg (by decide : ¬(ValidationTrigger.icon = ValidationTrigger.doubleClickWord ∨
      ValidationTrigger.icon = ValidationTrigger.doubleClickSentence))]
    rw [if_pos hsup]
    rw [if_pos (show (!shouldTriggerTranslationAsync detect (jsTrim sel.range.cleanText)
      (effectiveTargetLang settings defaults) (some sel.range.contextText)) = true
      by simp [h8])]
  · -- (d)
    intro d1 d2 hsup
    dsimp only [validateSelectionAsync]
    by_cases c0 : sel.rangeCount = 0
    · rw [if_pos c0, if_pos c0]
    rw [if_neg c0, if_neg c0]
    by_cases c1 : (!(settings.bind UserSettings.enableTapWord).getD true) = true
    · rw [if_pos c1, if_pos c1]
    rw [if_neg c1, if_neg c1]
    by_cases c2 : ValidationTrigger.icon = ValidationTrigger.icon ∧
        (!(settings.bind UserSettings.showIcon).getD true) = true
    · rw [if_pos c2, if_pos c2]
    rw [if_neg c2, if_neg c2]
    rw [if_neg (fun h : ValidationTrigger.icon = ValidationTrigger.doubleClickWord ∧
      (!(settings.bind UserSettings.doubleClickTranslateV2).getD true) = true =>
        absurd h.1 (by decide)),
      if_neg (fun h : ValidationTrigger.icon = ValidationTrigger.doubleClickWord ∧
      (!(settings.bind UserSettings.doubleClickTranslateV2).getD true) = true =>
        absurd h.1 (by decide))]
    rw [if_neg (fun h : ValidationTrigger.icon = ValidationTrigger.doubleClickSentence ∧
      (!(settings.bind UserSettings.doubleClickSentenceTranslate).getD true) = true =>
        absurd h.1 (by decide)),
      if_neg (fun h : ValidationTrigger.icon = ValidationTrigger.doubleClickSentence ∧
      (!(settings.bind UserSettings.doubleClickSentenceTranslate).getD true) = true =>
        absurd h.1 (by decide))]
    by_cases c5 : (jsTrim sel.range.cleanText).length = 0
    · rw [if_pos c5, if_pos c5]
    rw [if_neg c5, if_neg c5]
    by_cases c6 : utf16Len (jsTrim sel.range.cleanText) > maxSelectionLength
    · rw [if_pos c6, if_pos c6]
    rw [if_neg c6, if_neg c6]
    by_cases c7 : isContentless (jsTrim sel.range.cleanText) = true
    · rw [if_pos c7, if_pos c7]
    rw [if_neg c7, if_neg c7]
    rw [if_neg (by decide : ¬(ValidationTrigger.icon = ValidationTrigger.doubleClickWord ∨
        ValidationTrigger.icon = ValidationTrigger.doubleClickSentence)),
      if_neg (by decide : ¬(ValidationTrigger.icon = ValidationTrigger.doubleClickWord ∨
        ValidationTrigger.icon = ValidationTrigger.doubleClickSentence))]
    rw [if_neg (show ¬((settings.bind UserSettings.suppressNativeLanguage).getD
        defaults.suppressNativeLanguage = true) by simp [hsup]),
      if_neg (show ¬((settings.bind UserSettings.suppressNativeLanguage).getD
        defaults.suppressNativeLanguage = true) by simp [hsup])]





/-- C9: contentless text (digits/whitespace/punctuation/symbols only) is
rejected with no cleanup on every trigger path, before suppression. -/
theorem contentless_rejected (detect : Str → Option String)
    (maxSelectionLength : Nat) (defaults : PipelineDefaults)
    (sel : SelectionModel) (settings : Option UserSettings) :
    (∀ trig : ValidationTrigger,
      sel.rangeCount ≠ 0 →
      (settings.bind UserSettings.enableTapWord).getD true = true →
      (trig = .icon → (settings.bind UserSettings.showIcon).getD true = true) →
      (trig = .doubleClickWord →
        (settings.bind UserSettings.doubleClickTranslateV2).getD true = true) →
      (trig = .doubleClickSentence →
        (settings.bind UserSettings.doubleClickSentenceTranslate).getD true = true) →
      utf16Len (jsTrim sel.range.cleanText) ≤ maxSelectionLength →
      isContentless (jsTrim sel.range.cleanText) = true →
      validateSelectionAsync detect maxSelectionLength defaults (some sel) settings trig =
        ⟨false, jsTrim sel.range.cleanText, none, "Contentless selection skipped", false⟩) ∧
    (∀ (event : MouseEventModel) (page : PageState) (r : RangeModel),
      (settings.bind UserSettings.enableTapWord).getD true = true →
      (settings.bind UserSettings.singleClickTranslate).getD false = true →
      event.button = 0 → event.defaultPrevented = false →
      event.ctrlKey = false → event.altKey = false →
      event.metaKey = false → event.shiftKey = false →
      event.targetIsInteractive = false → event.targetInExtensionUi = false →
      page.hasNonCollapsedSelection = false →
      page.wordRangeAtPoint = some r →
      (jsTrim r.cleanText).any jsWhitespace = false →
      utf16Len (jsTrim r.cleanText) ≤ maxSingleClickWordLength →
      isContentless (jsTrim r.cleanText) = true →
      validateSingleClickAsync detect defaults event page settings =
        ⟨false, jsTrim r.cleanText, none, "Contentless selection skipped", false⟩) := by
  constructor
  · intro trig h1 h2 h3w h3i h3s hlen hcl
    have hne : jsTrim sel.range.cleanText ≠ [] := by
      intro hnil
      rw [hnil] at hcl
      simp [isContentless] at hcl
    dsimp only [validateSelectionAsync]
    rw [if_neg h1]
    rw [if_neg (show ¬((!(settings.bind UserSettings.enableTapWord).getD true) = true)
      by simp [h2])]
    rw [if_neg (show ¬(trig = ValidationTrigger.icon ∧
      (!(settings.bind UserSettings.showIcon).getD true) = true)
      by rintro ⟨ht, hh⟩; rw [h3w ht] at hh; simp at hh)]
    rw [if_neg (show ¬(trig = ValidationTrigger.doubleClickWord ∧
      (!(settings.bind UserSettings.doubleClickTranslateV2).getD true) = true)
      by rintro ⟨ht, hh⟩; rw [h3i ht] at hh; simp at hh)]
    rw [if_neg (show ¬(trig = ValidationTrigger.doubleClickSentence ∧
      (!(settings.bind UserSettings.doubleClickSentenceTranslate).getD true) = true)
      by rintro ⟨ht, hh⟩; rw [h3s ht] at hh; simp at hh)]
    rw [if_neg (show ¬((jsTrim sel.range.cleanText).length = 0) by simpa using hne)]
    rw [if_neg (by omega : ¬(utf16Len (jsTrim sel.range.cleanText) > maxSelectionLength))]
    rw [if_pos hcl]
  · intro event page r h2 hsc hb hd hc ha hm hs hint hui hsel hpage hws hlen hcl
    have hne : jsTrim r.cleanText ≠ [] := by
      intro hnil
      rw [hnil] at hcl
      simp [isContentless] at hcl
    dsimp only [validateSingleClickAsync]
    rw [if_neg (show ¬((!(settings.bind UserSettings.enableTapWord).getD true) = true)
      by simp [h2])]
    rw [if_neg (show ¬((!(settings.bind UserSettings.singleClickTranslate).getD false) = true)
      by simp [hsc])]
    rw [if_neg (show ¬(event.button ≠ 0 ∨ event.defaultPrevented = true)
      by simp [hb, hd])]
    rw [if_neg (show ¬((event.ctrlKey || event.altKey || event.metaKey || event.shiftKey) = true)
      by simp [hc, ha, hm, hs])]
    rw [if_neg (show ¬(event.targetIsInteractive = true) by simp [hint])]
    rw [if_neg (show ¬(event.targetInExtensionUi = true) by simp [hui])]
    rw [if_neg (show ¬(page.hasNonCollapsedSelection = true) by simp [hsel])]
    rw [hpage]
    dsimp only
    rw [if_neg (show ¬(((jsTrim r.cleanText).isEmpty || (jsTrim r.cleanText).any jsWhitespace) = true)
      by simp [hws, List.isEmpty_iff, hne])]
    rw [if_neg (by omega : ¬(utf16Len (jsTrim r.cleanText) > maxSingleClickWordLength))]
    rw [if_pos hcl]





/-- C4 witness: double-click on `"你好世界"` with target `zh` is
suppressed with cleanup, reason containing `"suppressed"`. -/
theorem click_forces_suppression_witness :
    validateSelectionAsync (fun _ => none) 100 ⟨"en", true⟩
      (some ⟨1, ⟨"你好世界".toList, [], false, false⟩⟩)
      (some ⟨some true, some true, some true, some true, some true, some true, some "zh"⟩)
      .doubleClickWord =
      ⟨false, jsTrim "你好世界".toList, none,
        "Double-click suppressed on native language", true⟩ ∧
    containsSub "suppressed".toList
      (validateSelectionAsync (fun _ => none) 100 ⟨"en", true⟩
        (some ⟨1, ⟨"你好世界".toList, [], false, false⟩⟩)
        (some ⟨some true, some true, some true, some true, some true, some true, some "zh"⟩)
        .doubleClickWord).reason.toList = true :=
  (click_forces_suppression (fun _ => none) 100 ⟨"en", true⟩
    ⟨1, ⟨"你好世界".toList, [], false, false⟩⟩
    (some ⟨some true, some true, some true, some true, some true, some true, some "zh"⟩)
    .doubleClickWord (Or.inl rfl)).2.1 (by decide) (by decide) (by decide) (by decide)
    (by decide) (by decide) (by decide) (by decide)

/-- C5 witness: Kana always allows; `"你好世界"` (ratio 1) suppresses;
one Han in twenty characters (ratio exactly 0.05) does not. -/
theorem zh_ratio_threshold_witness :
    shouldTriggerTranslationAsync (fun _ => none) "テスト".toList "zh-CN" none = true ∧
    shouldTriggerTranslationAsync (fun _ => none) "你好世界".toList "zh-CN" none = false ∧
    shouldTriggerTranslationAsync (fun _ => none) "你abcdefghijklmnopqrs".toList "zh-CN" none = true :=
  ⟨(zh_ratio_threshold (fun _ => none) "テスト".toList "zh-CN" (by decide)).1 (by decide) none,
   (zh_ratio_threshold (fun _ => none) "你好世界".toList "zh-CN" (by decide)).2.1
     (by decide) (by decide) none,
   (zh_ratio_threshold (fun _ => none) "你abcdefghijklmnopqrs".toList "zh-CN" (by decide)).2.2
     (by decide) (by decide)⟩

/-- C6 witness: a caret just past `"hello"` resolves to the maximal run
`[0, 5)`; a caret on punctuation resolves to nothing. -/
theorem expandRangeToWord_spec_witness :
    expandRangeToWord "...!".toList 1 = none ∧
    (∃ s e, expandRangeToWord "hello world".toList 5 = some (s, e) ∧
      s ≤ wordAdjustedIndex "hello world".toList 5 ∧
      wordAdjustedIndex "hello world".toList 5 < e ∧
      e ≤ "hello world".toList.length ∧ s < e ∧
      (∀ k, s ≤ k → k < e → wordCharAt "hello world".toList k = true) ∧
      (s = 0 ∨ wordCharAt "hello world".toList (s - 1) = false) ∧
      (e = "hello world".toList.length ∨ wordCharAt "hello world".toList e = false)) :=
  ⟨(expandRangeToWord_spec "...!".toList 1).1 (by decide),
   (expandRangeToWord_spec "hello world".toList 5).2 (by decide)⟩

/-- C9 witness: `"12:34"` (icon trigger) and `"$$$"` (single click) are
rejected as contentless with no cleanup, whatever the detector says. -/
theorem contentless_rejected_witness :
    validateSelectionAsync (fun _ => some "zh") 100 ⟨"en", true⟩
      (some ⟨1, ⟨"12:34".toList, [], false, false⟩⟩)
      (some ⟨some true, some true, some true, some true, some true, some true, some "zh"⟩)
      .icon =
      ⟨false, jsTrim "12:34".toList, none, "Contentless selection skipped", false⟩ ∧
    validateSingleClickAsync (fun _ => some "zh") ⟨"en", true⟩
      ⟨0, false, false, false, false, false, false, false⟩
      ⟨false, some ⟨"$$$".toList, [], false, false⟩⟩
      (some ⟨some true, some true, some true, some true, some true, some true, some "zh"⟩) =
      ⟨false, jsTrim "$$$".toList, none, "Contentless selection skipped", false⟩ :=
  ⟨(contentless_rejected (fun _ => some "zh") 100 ⟨"en", true⟩
      ⟨1, ⟨"12:34".toList, [], false, false⟩⟩
      (some ⟨some true, some true, some true, some true, some true, some true, some "zh"⟩)).1
      .icon (by decide) (by decide) (by decide) (by decide) (by decide) (by decide) (by decide),
   (contentless_rejected (fun _ => some "zh") 100 ⟨"en", true⟩
      ⟨1, ⟨"12:34".toList, [], false, false⟩⟩
      (some ⟨some true, some true, some true, some true, some true, some true, some "zh"⟩)).2
      ⟨0, false, false, false, false, false, false, false⟩
      ⟨false, some ⟨"$$$".toList, [], false, false⟩⟩
      ⟨"$$$".toList, [], false, false⟩
      (by decide) (by decide) (by decide) (by decide) (by decide) (by decide) (by decide)
      (by decide) (by decide) (by decide) (by decide) (by decide) (by decide) (by decide)
      (by decide)⟩

end TapWord
